import Mathlib

/-!
# Software timer multiplexer of `simple/cpu-frt/cpu-frt.c`

A shallow embedding of the slot table (`_timer_states`, `_next_timer`,
`_id_count`), of `timer_init`, `timer_add`, `timer_remove` and of the slot loop
of `_frt_compare_output_handler`, followed by the properties established
about them.

Conventions of the embedding.

* `uint32_t` values are natural numbers; arithmetic that can wrap is reduced
  modulo `UINT32_MOD` at the place where the C code wraps (the decrement
  `remaining--` is `uint32_dec`).
* A function pointer and a `void *` are natural numbers, `0` being `NULL`.
* A `struct timer_state *` into `_timer_states` is the index of the slot.
* `_timer_states` is a function on indices; only the indices below
  `TIMER_MAX_TIMERS_COUNT` are storage of the array.  An access outside the
  array is undefined behaviour in C; `timer_add` returns `none` for it.
* The interrupt mask read and written with `cpu_intc_mask_get` and
  `cpu_intc_mask_set` is the field `i_mask` of the state.
* A callback is foreign code.  One run of the compare handler is given a
  function `cb` telling, for the event handed to the callback, the value the
  callback leaves in `event.next_interval`; the handler also yields the list
  of the events it handed out, in order.
-/

namespace CpuFrt

/-- Number of slots, `#define TIMER_MAX_TIMERS_COUNT 16`. -/
def TIMER_MAX_TIMERS_COUNT : Nat := 16

/-- Modulus of `uint32_t` arithmetic, 2^32. -/
def UINT32_MOD : Nat := 4294967296

/-- The decrement `x--` of a `uint32_t`: one less, and 2^32 - 1 from 0. -/
def uint32_dec (x : Nat) : Nat := if x = 0 then UINT32_MOD - 1 else x - 1

/-- Request of the caller, `struct timer`. -/
structure timer where
  interval : Nat
  callback : Nat
  work : Nat
deriving DecidableEq, Repr

/-- Event handed to a callback, `struct timer_event`.  The field `timer` is
the pointer `&timer_state->event`, kept as the index of the slot. -/
structure timer_event where
  id : Nat
  timer : Nat
  work : Nat
  next_interval : Nat
deriving DecidableEq, Repr

/-- One slot of the table, `struct timer_state`. -/
structure timer_state where
  valid : Bool
  id : Nat
  event : timer
  remaining : Nat
deriving DecidableEq, Repr

/-- The static data of the module together with the interrupt mask. -/
structure State where
  _timer_states : Nat → timer_state
  _next_timer : Nat
  _id_count : Nat
  i_mask : Nat

/-- Image of the statics at program start: zero-filled slots,
`_next_timer = 0`, `_id_count = 0`; the mask is the `0x7` that
`_hardware_init` sets before `main` calls `timer_init`. -/
def boot : State :=
  { _timer_states := fun _ => ⟨false, 0, ⟨0, 0, 0⟩, 0⟩
    _next_timer := 0
    _id_count := 0
    i_mask := 7 }

/-- Loop of `timer_init`: `n` iterations from index `timer`, each clearing
`valid`. -/
def timer_init_loop : Nat → Nat → (Nat → timer_state) → (Nat → timer_state)
  | 0, _, tbl => tbl
  | n + 1, timer, tbl =>
    timer_init_loop n (timer + 1)
      (Function.update tbl timer { tbl timer with valid := false })

/-- The table part of `timer_init`; the calls configuring the free-running
timer hardware do not touch the statics. -/
def timer_init (s : State) : State :=
  { s with _timer_states := timer_init_loop TIMER_MAX_TIMERS_COUNT 0 s._timer_states }

/-- Loop "Look for a free timer" of `timer_add`: `n` iterations are left,
`timer` is the loop counter and `ptr` the current value of `timer_state`.
Yields the final `(timer, timer_state)`. -/
def add_scan (tbl : Nat → timer_state) : Nat → Nat → Nat → Nat × Nat
  | 0, timer, ptr => (timer, ptr)
  | n + 1, timer, _ =>
    if !(tbl timer).valid then (timer, timer)
    else add_scan tbl n (timer + 1) timer

/-- Lines 145-162 of `timer_add` for an in-bounds hint: the slot pointer
`timer_state` and the new value of `_next_timer`. -/
def add_select (s : State) : Nat × Nat :=
  let idx := s._next_timer &&& 0x1F
  if (s._timer_states idx).valid then
    let r := add_scan s._timer_states TIMER_MAX_TIMERS_COUNT 0 idx
    (r.2, r.1)
  else
    (idx, (s._next_timer + 1) % UINT32_MOD)

/-- Function `timer_add`.  The result is `none` when the read of
`_timer_states[_next_timer & 0x1F]` is outside the array, otherwise the
returned `int32_t` and the state left behind. -/
def timer_add (t : timer) (s : State) : Option (Int × State) :=
  let i_mask := s.i_mask
  let s := { s with i_mask := 0x0F }
  if t.callback = 0 then some (-1, s)
  else if t.interval = 0 then some (-1, s)
  else if (s._next_timer &&& 0x1F) < TIMER_MAX_TIMERS_COUNT then
    let sel := add_select s
    let s := { s with _next_timer := sel.2 }
    if sel.2 > TIMER_MAX_TIMERS_COUNT then some (-1, s)
    else
      some (0,
        { s with
          _timer_states :=
            Function.update s._timer_states sel.1
              { valid := true, id := s._id_count, event := t, remaining := t.interval }
          _id_count := (s._id_count + 1) % UINT32_MOD
          i_mask := i_mask })
  else none

/-- State at the `return 0` of `timer_add`, lines 159-177: the chosen slot
is filled, `_next_timer` and `_id_count` are advanced and the saved mask is
back in place. -/
def registered (t : timer) (s : State) : State :=
  { _timer_states :=
      Function.update s._timer_states (add_select s).1
        { valid := true, id := s._id_count, event := t, remaining := t.interval }
    _next_timer := (add_select s).2
    _id_count := (s._id_count + 1) % UINT32_MOD
    i_mask := s.i_mask }

/-- Search loop of `timer_remove`: `n` iterations are left and `timer` is the
loop counter.  Yields the final value of `timer`. -/
def remove_scan (tbl : Nat → timer_state) (id : Nat) : Nat → Nat → Nat
  | 0, timer => timer
  | n + 1, timer =>
    if (tbl timer).valid && (id == (tbl timer).id) then timer
    else remove_scan tbl id n (timer + 1)

/-- Function `timer_remove`: the returned `int32_t` and the state left
behind. -/
def timer_remove (id : Nat) (s : State) : Int × State :=
  let i_mask := s.i_mask
  let s := { s with i_mask := 0x0F }
  let timer := remove_scan s._timer_states id TIMER_MAX_TIMERS_COUNT 0
  if timer = TIMER_MAX_TIMERS_COUNT then (-1, { s with i_mask := i_mask })
  else
    (0,
      { s with
        _next_timer := timer
        _timer_states :=
          Function.update s._timer_states timer { s._timer_states timer with valid := false }
        i_mask := i_mask })

/-- Body of the slot loop of `_frt_compare_output_handler` for slot `i`: the
slot afterwards and the events handed to the callback (none or one). -/
def tick_body (cb : timer_event → Nat) (i : Nat) (ts : timer_state) :
    timer_state × List timer_event :=
  if !ts.valid then (ts, [])
  else
    let ts := { ts with remaining := uint32_dec ts.remaining }
    if ts.remaining != 0 then (ts, [])
    else
      let event : timer_event :=
        { id := ts.id, timer := i, work := ts.event.work, next_interval := ts.event.interval }
      let next_interval := cb event % UINT32_MOD
      if next_interval > 0 then ({ ts with remaining := next_interval }, [event])
      else ({ ts with valid := false }, [event])

/-- Slot loop of `_frt_compare_output_handler`: `n` iterations from index
`i`. -/
def tick_loop (cb : timer_event → Nat) :
    Nat → Nat → (Nat → timer_state) → (Nat → timer_state) × List timer_event
  | 0, _, tbl => (tbl, [])
  | n + 1, i, tbl =>
    let r := tick_body cb i (tbl i)
    let rest := tick_loop cb n (i + 1) (Function.update tbl i r.1)
    (rest.1, r.2 ++ rest.2)

/-- Function `_frt_compare_output_handler`, lines 59-93.  Lines 49-57 before
the loop only rewrite the count register of the free-running timer, which is
not part of `State`. -/
def _frt_compare_output_handler (cb : timer_event → Nat) (s : State) :
    State × List timer_event :=
  let r := tick_loop cb TIMER_MAX_TIMERS_COUNT 0 s._timer_states
  ({ s with _timer_states := r.1 }, r.2)

/-- Callback `_timer_handler` of `main`: it bumps the counter behind `work`
and leaves `next_interval` as it received it. -/
def _timer_handler (event : timer_event) : Nat := event.next_interval

/-- Number of valid slots of the table. -/
def occupancy (s : State) : Nat :=
  (List.range TIMER_MAX_TIMERS_COUNT).countP (fun i => (s._timer_states i).valid)

/-- Conversion of a returned `int32_t` to the `uint32_t` parameter of
`timer_remove`. -/
def to_uint32 (r : Int) : Nat := (r % 4294967296).toNat

/-- One step of the environment: a foreground call or one compare interrupt. -/
inductive Step where
  | add (t : timer)
  | remove (id : Nat)
  | tick (cb : timer_event → Nat)

/-- Effect of a step on the state; `none` when `timer_add` reads outside the
array. -/
def step : Step → State → Option State
  | Step.add t, s => (timer_add t s).map Prod.snd
  | Step.remove id, s => some (timer_remove id s).2
  | Step.tick cb, s => some (_frt_compare_output_handler cb s).1

/-- Effect of a sequence of steps, first step first. -/
def run : List Step → State → Option State
  | [], s => some s
  | a :: rest, s => (step a s).bind (run rest)

/-- Number of registrations made by a sequence of steps from state `s`: the
`timer_add` calls that return `0`. -/
def registrations : List Step → State → Nat
  | [], _ => 0
  | Step.add t :: rest, s =>
    match timer_add t s with
    | some (r, s1) => (if r = 0 then 1 else 0) + registrations rest s1
    | none => 0
  | Step.remove id :: rest, s => registrations rest (timer_remove id s).2
  | Step.tick cb :: rest, s => registrations rest (_frt_compare_output_handler cb s).1

/-- Every compare interrupt of the sequence meets a callback behaviour with
the property `G`. -/
def all_ticks (G : (timer_event → Nat) → Prop) : List Step → Prop
  | [] => True
  | Step.tick cb :: rest => G cb ∧ all_ticks G rest
  | _ :: rest => all_ticks G rest

/-- No callback of the sequence raises `next_interval` above the value it
was handed, which is the interval stored in the slot. -/
def rearm_bounded (ops : List Step) : Prop :=
  all_ticks (fun cb => ∀ ev, cb ev ≤ ev.next_interval) ops

/-- Per-slot facts of a valid slot: a callback, a positive interval and a
positive countdown. -/
def slot_armed (ts : timer_state) : Prop :=
  ts.valid = true → ts.event.callback ≠ 0 ∧ 0 < ts.event.interval ∧ 1 ≤ ts.remaining

/-- Per-slot bound of the countdown by the stored interval. -/
def slot_within (ts : timer_state) : Prop :=
  ts.valid = true → ts.remaining ≤ ts.event.interval

/-- Ids of valid slots lie below the id counter. -/
def ids_below (s : State) : Prop :=
  ∀ j, j < 16 → (s._timer_states j).valid = true → (s._timer_states j).id < s._id_count

/-- Distinct valid slots carry distinct ids. -/
def ids_distinct (s : State) : Prop :=
  ∀ i j, i < 16 → j < 16 → i ≠ j → (s._timer_states i).valid = true →
    (s._timer_states j).valid = true → (s._timer_states i).id ≠ (s._timer_states j).id

/-- State after `n` compare interrupts, the `m`-th of them (counted from 1)
meeting the callback behaviour `cbs m`. -/
def ticks (cbs : Nat → timer_event → Nat) : Nat → State → State
  | 0, s => s
  | n + 1, s => (_frt_compare_output_handler (cbs (n + 1)) (ticks cbs n s)).1

/-- Events handed to callbacks by the `n`-th compare interrupt after `s`
(`n` counted from 1). -/
def fired (cbs : Nat → timer_event → Nat) (s : State) (n : Nat) : List timer_event :=
  (_frt_compare_output_handler (cbs n) (ticks cbs (n - 1) s)).2

/-- Events of the `n`-th compare interrupt that come from slot `i`. -/
def fired_by (cbs : Nat → timer_event → Nat) (s : State) (i n : Nat) : List timer_event :=
  (fired cbs s n).filter (fun ev => ev.timer == i)

/-- Number of callback invocations for slot `i` during the first `T` compare
interrupts after `s`. -/
def fire_count (cbs : Nat → timer_event → Nat) (s : State) (i : Nat) : Nat → Nat
  | 0 => 0
  | T + 1 => fire_count cbs s i T + (fired_by cbs s i (T + 1)).length

/-- Request `match1` of `main`.  In the four requests the callback pointer
`_timer_handler` is `1` and the `work` pointers, the addresses of
`_counter_1` .. `_counter_4`, are `101` .. `104`. -/
def match1 : timer := { interval := 1000, callback := 1, work := 101 }

/-- Request `match2` of `main`. -/
def match2 : timer := { interval := 2000, callback := 1, work := 102 }

/-- Request `match3` of `main`. -/
def match3 : timer := { interval := 3, callback := 1, work := 103 }

/-- Request `match4` of `main`. -/
def match4 : timer := { interval := 500, callback := 1, work := 104 }

/-- The four `timer_add` calls of `main`. -/
def main_steps : List Step :=
  [Step.add match1, Step.add match2, Step.add match3, Step.add match4]

/-- State of `main` when it enters its display loop. -/
def main_state : State :=
  registered match4 (registered match3 (registered match2 (registered match1 (timer_init boot))))

/-- The calls of `main`, one compare interrupt met by `_timer_handler`, and
the cancellation of id 1. -/
def demo_steps : List Step :=
  main_steps ++ [Step.tick _timer_handler, Step.remove 1]

/-- State after `demo_steps`. -/
def demo_state : State :=
  (timer_remove 1 (_frt_compare_output_handler _timer_handler main_state).1).2

/-- A table that became full: sixteen registrations, the cancellation of id 3
and one more registration. -/
def full_steps : List Step :=
  List.replicate 16 (Step.add match1) ++ [Step.remove 3, Step.add match3]

/-- A request whose callback (pointer `2`) stops the timer at its first
event. -/
def one_shot : timer := { interval := 3, callback := 2, work := 105 }

/-- Events handed to callbacks along a run, in the order of the calls. -/
def events : List Step → State → List timer_event
  | [], _ => []
  | Step.add t :: rest, s =>
    match timer_add t s with
    | some (_, s1) => events rest s1
    | none => []
  | Step.remove id :: rest, s => events rest (timer_remove id s).2
  | Step.tick cb :: rest, s =>
    (_frt_compare_output_handler cb s).2 ++ events rest (_frt_compare_output_handler cb s).1

/-- Number of compare interrupts in a sequence of steps. -/
def tick_count : List Step → Nat
  | [] => 0
  | Step.tick _ :: rest => tick_count rest + 1
  | _ :: rest => tick_count rest

/-- Callback behaviour met by the `n`-th compare interrupt of a sequence of
steps, `n` counted from 1. -/
def nth_tick : List Step → Nat → Option (timer_event → Nat)
  | [], _ => none
  | Step.tick cb :: rest, n => if n = 1 then some cb else nth_tick rest (n - 1)
  | _ :: rest, n => nth_tick rest n

/-- The foreground calls of a run leave the timer with id `id` alone: no
`timer_remove` is called with `id`, and no `timer_add` that returns `0` fills
a slot that is valid with `id`. -/
def undisturbed (id : Nat) : List Step → State → Bool
  | [], _ => true
  | Step.add t :: rest, s =>
    match timer_add t s with
    | some (r, s1) =>
      (r != 0 ||
          !((s._timer_states (add_select s).1).valid &&
            (s._timer_states (add_select s).1).id == id)) &&
        undisturbed id rest s1
    | none => true
  | Step.remove i :: rest, s => i != id && undisturbed id rest (timer_remove i s).2
  | Step.tick cb :: rest, s => undisturbed id rest (_frt_compare_output_handler cb s).1

/-- No valid slot other than slot `p` carries the id `id`.  With `p = 16` no
valid slot of the table carries it. -/
def others_differ (id p : Nat) (s : State) : Prop :=
  ∀ j, j < 16 → j ≠ p → (s._timer_states j).valid = true → (s._timer_states j).id ≠ id

/-- A callback behaviour that stops the timer with id 4 and leaves every
other timer at its period. -/
def one_shot_handler (event : timer_event) : Nat :=
  if event.id = 4 then 0 else event.next_interval

/-- Steps after the registration of `one_shot` on top of `main_state`:
compare interrupts with a registration and a cancellation of other timers in
between. -/
def one_shot_steps : List Step :=
  [Step.tick one_shot_handler, Step.add match1, Step.tick one_shot_handler, Step.remove 1,
    Step.tick one_shot_handler, Step.tick one_shot_handler]

/-- State after `one_shot_steps`. -/
def one_shot_state : State :=
  (run one_shot_steps (registered one_shot main_state)).getD boot

/-- A table state after the 32-bit id counter has gone round: the timer
registered under id 7 is still armed in slot 0 and `_id_count` is 7 again. -/
def wrapped_state : State :=
  { _timer_states := fun i =>
      if i = 0 then ⟨true, 7, match1, 1000⟩ else ⟨false, 0, ⟨0, 0, 0⟩, 0⟩
    _next_timer := 1
    _id_count := 7
    i_mask := 7 }

/-- A request of interval 5 with the callback of `main`. -/
def victim : timer := { interval := 5, callback := 1, work := 106 }

/-- Fifteen registrations, the registration of `victim` (slot 15, id 15),
the cancellation of id 3, a registration that refills slot 3, and one more
registration on the table that is now full. -/
def victim_steps : List Step :=
  List.replicate 15 (Step.add match1) ++
    [Step.add victim, Step.remove 3, Step.add match3, Step.add match2]

/-! ## The loops -/

theorem timer_init_loop_spec (n a : Nat) (tbl : Nat → timer_state) (j : Nat) :
    timer_init_loop n a tbl j =
      if a ≤ j ∧ j < a + n then { tbl j with valid := false } else tbl j := by
  induction n generalizing a tbl with
  | zero =>
    have : ¬ (a ≤ j ∧ j < a) := by omega
    simp [timer_init_loop, this]
  | succ n ih =>
    simp only [timer_init_loop]
    rw [ih]
    by_cases hj : j = a
    · subst hj
      have h1 : ¬ (j + 1 ≤ j ∧ j < j + 1 + n) := by omega
      have h2 : j ≤ j ∧ j < j + (n + 1) := by omega
      simp [h1, h2]
    · rw [Function.update_noteq hj]
      by_cases hc : a ≤ j ∧ j < a + (n + 1)
      · have h1 : a + 1 ≤ j ∧ j < a + 1 + n := by omega
        simp [h1, hc]
      · have h1 : ¬ (a + 1 ≤ j ∧ j < a + 1 + n) := by omega
        simp [h1, hc]

theorem timer_init_valid (s : State) (j : Nat) (hj : j < 16) :
    ((timer_init s)._timer_states j).valid = false := by
  have h : 0 ≤ j ∧ j < 0 + 16 := by omega
  simp [timer_init, TIMER_MAX_TIMERS_COUNT, timer_init_loop_spec, h]

/-- Result of the free-slot scan: either it stops at the first free slot, or
every scanned slot is valid and the pointer rests on the last one. -/
theorem add_scan_spec (tbl : Nat → timer_state) (n a p : Nat) :
    (a ≤ (add_scan tbl n a p).1 ∧ (add_scan tbl n a p).1 < a + n ∧
        (add_scan tbl n a p).2 = (add_scan tbl n a p).1 ∧
        (tbl (add_scan tbl n a p).1).valid = false ∧
        ∀ j, a ≤ j → j < (add_scan tbl n a p).1 → (tbl j).valid = true) ∨
      ((add_scan tbl n a p).1 = a + n ∧
        (0 < n → (add_scan tbl n a p).2 = a + n - 1) ∧
        (n = 0 → (add_scan tbl n a p).2 = p) ∧
        ∀ j, a ≤ j → j < a + n → (tbl j).valid = true) := by
  induction n generalizing a p with
  | zero =>
    right
    have e : add_scan tbl 0 a p = (a, p) := rfl
    rw [e]
    exact ⟨rfl, fun h => absurd h (lt_irrefl 0), fun _ => rfl, fun j h1 h2 => by omega⟩
  | succ n ih =>
    have e : add_scan tbl (n + 1) a p =
        if !(tbl a).valid then (a, a) else add_scan tbl n (a + 1) a := rfl
    rw [e]
    by_cases hv : (tbl a).valid = true
    · have hc : ¬ ((!(tbl a).valid) = true) := by simp [hv]
      rw [if_neg hc]
      rcases ih (a + 1) a with h | h
      · left
        obtain ⟨h1, h2, h3, h4, h5⟩ := h
        refine ⟨by omega, by omega, h3, h4, ?_⟩
        intro j hj1 hj2
        by_cases hja : j = a
        · rw [hja]; exact hv
        · exact h5 j (by omega) hj2
      · right
        obtain ⟨h1, h2, h3, h4⟩ := h
        refine ⟨by omega, ?_, by omega, ?_⟩
        · intro _
          by_cases hn : n = 0
          · rw [h3 hn, hn]; omega
          · rw [h2 (by omega)]; omega
        · intro j hj1 hj2
          by_cases hja : j = a
          · rw [hja]; exact hv
          · exact h4 j (by omega) (by omega)
    · have hv2 : (tbl a).valid = false := by simpa using hv
      have hc : (!(tbl a).valid) = true := by simp [hv2]
      rw [if_pos hc]
      left
      exact ⟨le_refl a, by omega, rfl, hv2, fun j hj1 hj2 => by omega⟩

/-- Result of the search of `timer_remove`: either it stops at the first
valid slot with the id, or no scanned slot is valid with the id. -/
theorem remove_scan_spec (tbl : Nat → timer_state) (id n a : Nat) :
    (a ≤ remove_scan tbl id n a ∧ remove_scan tbl id n a < a + n ∧
        (tbl (remove_scan tbl id n a)).valid = true ∧
        (tbl (remove_scan tbl id n a)).id = id) ∨
      (remove_scan tbl id n a = a + n ∧
        ∀ j, a ≤ j → j < a + n → ¬ ((tbl j).valid = true ∧ (tbl j).id = id)) := by
  induction n generalizing a with
  | zero =>
    right
    have e : remove_scan tbl id 0 a = a := rfl
    rw [e]
    exact ⟨rfl, fun j h1 h2 => by omega⟩
  | succ n ih =>
    have e : remove_scan tbl id (n + 1) a =
        if (tbl a).valid && (id == (tbl a).id) then a
        else remove_scan tbl id n (a + 1) := rfl
    rw [e]
    by_cases hv : (tbl a).valid = true ∧ (tbl a).id = id
    · left
      have hc : ((tbl a).valid && (id == (tbl a).id)) = true := by
        simp [hv.1, hv.2]
      rw [if_pos hc]
      exact ⟨le_refl a, by omega, hv.1, hv.2⟩
    · have hc : ¬ (((tbl a).valid && (id == (tbl a).id)) = true) := by
        intro h
        simp only [Bool.and_eq_true, beq_iff_eq] at h
        exact hv ⟨h.1, h.2.symm⟩
      rw [if_neg hc]
      rcases ih (a + 1) with h | h
      · left
        obtain ⟨h1, h2, h3, h4⟩ := h
        exact ⟨by omega, by omega, h3, h4⟩
      · right
        obtain ⟨h1, h2⟩ := h
        refine ⟨by omega, ?_⟩
        intro j hj1 hj2
        by_cases hja : j = a
        · rw [hja]; exact hv
        · exact h2 j (by omega) (by omega)

theorem tick_body_invalid (cb : timer_event → Nat) (i : Nat) (ts : timer_state)
    (hv : ts.valid = false) : tick_body cb i ts = (ts, []) := by
  simp [tick_body, hv]

theorem tick_body_count (cb : timer_event → Nat) (i : Nat) (ts : timer_state)
    (hv : ts.valid = true) (hr : uint32_dec ts.remaining ≠ 0) :
    tick_body cb i ts =
      ({ ts with remaining := uint32_dec ts.remaining }, []) := by
  simp [tick_body, hv, hr]

theorem tick_body_rearm (cb : timer_event → Nat) (i : Nat) (ts : timer_state)
    (hv : ts.valid = true) (hr : uint32_dec ts.remaining = 0)
    (hc : 0 < cb ⟨ts.id, i, ts.event.work, ts.event.interval⟩ % UINT32_MOD) :
    tick_body cb i ts =
      ({ ts with
          remaining := cb ⟨ts.id, i, ts.event.work, ts.event.interval⟩ % UINT32_MOD },
        [⟨ts.id, i, ts.event.work, ts.event.interval⟩]) := by
  simp [tick_body, hv, hr, hc]

theorem tick_body_stop (cb : timer_event → Nat) (i : Nat) (ts : timer_state)
    (hv : ts.valid = true) (hr : uint32_dec ts.remaining = 0)
    (hc : cb ⟨ts.id, i, ts.event.work, ts.event.interval⟩ % UINT32_MOD = 0) :
    tick_body cb i ts =
      ({ ts with valid := false, remaining := 0 },
        [⟨ts.id, i, ts.event.work, ts.event.interval⟩]) := by
  simp [tick_body, hv, hr, hc]

/-- The four ways through the loop body. -/
theorem tick_body_cases (cb : timer_event → Nat) (i : Nat) (ts : timer_state) :
    (ts.valid = false ∧ tick_body cb i ts = (ts, [])) ∨
      (ts.valid = true ∧ uint32_dec ts.remaining ≠ 0 ∧
        tick_body cb i ts =
          ({ ts with remaining := uint32_dec ts.remaining }, [])) ∨
      (ts.valid = true ∧ uint32_dec ts.remaining = 0 ∧
        0 < cb ⟨ts.id, i, ts.event.work, ts.event.interval⟩ % UINT32_MOD ∧
        tick_body cb i ts =
          ({ ts with
              remaining := cb ⟨ts.id, i, ts.event.work, ts.event.interval⟩ % UINT32_MOD },
            [⟨ts.id, i, ts.event.work, ts.event.interval⟩])) ∨
      (ts.valid = true ∧ uint32_dec ts.remaining = 0 ∧
        cb ⟨ts.id, i, ts.event.work, ts.event.interval⟩ % UINT32_MOD = 0 ∧
        tick_body cb i ts =
          ({ ts with valid := false, remaining := 0 },
            [⟨ts.id, i, ts.event.work, ts.event.interval⟩])) := by
  by_cases hv : ts.valid = true
  · by_cases hr : uint32_dec ts.remaining = 0
    · by_cases hc : cb ⟨ts.id, i, ts.event.work, ts.event.interval⟩ % UINT32_MOD = 0
      · exact Or.inr (Or.inr (Or.inr ⟨hv, hr, hc, tick_body_stop cb i ts hv hr hc⟩))
      · exact Or.inr (Or.inr (Or.inl
          ⟨hv, hr, Nat.pos_of_ne_zero hc, tick_body_rearm cb i ts hv hr (Nat.pos_of_ne_zero hc)⟩))
    · exact Or.inr (Or.inl ⟨hv, hr, tick_body_count cb i ts hv hr⟩)
  · have hv2 : ts.valid = false := by simpa using hv
    exact Or.inl ⟨hv2, tick_body_invalid cb i ts hv2⟩

/-- Every event produced by the loop body for slot `i` carries `i`. -/
theorem tick_body_timer (cb : timer_event → Nat) (i : Nat) (ts : timer_state) :
    ∀ ev ∈ (tick_body cb i ts).2, ev.timer = i := by
  intro ev hev
  rcases tick_body_cases cb i ts with h | h | h | h
  · rw [h.2] at hev; simp at hev
  · rw [h.2.2] at hev; simp at hev
  · rw [h.2.2.2] at hev
    simp only [List.mem_singleton] at hev
    rw [hev]
  · rw [h.2.2.2] at hev
    simp only [List.mem_singleton] at hev
    rw [hev]

/-- The slot loop acts on each slot of its range by the loop body, and the
events it yields for a slot are those of the body. -/
theorem tick_loop_spec (cb : timer_event → Nat) (n a : Nat) (tbl : Nat → timer_state)
    (j : Nat) :
    (tick_loop cb n a tbl).1 j =
        (if a ≤ j ∧ j < a + n then (tick_body cb j (tbl j)).1 else tbl j) ∧
      (tick_loop cb n a tbl).2.filter (fun ev => ev.timer == j) =
        (if a ≤ j ∧ j < a + n then (tick_body cb j (tbl j)).2 else []) := by
  induction n generalizing a tbl with
  | zero =>
    have : ¬ (a ≤ j ∧ j < a) := by omega
    simp [tick_loop, this]
  | succ n ih =>
    simp only [tick_loop, List.filter_append]
    obtain ⟨ih1, ih2⟩ := ih (a + 1) (Function.update tbl a (tick_body cb a (tbl a)).1)
    rw [ih1, ih2]
    by_cases hj : j = a
    · subst hj
      have h1 : ¬ (j + 1 ≤ j ∧ j < j + 1 + n) := by omega
      have h2 : j ≤ j ∧ j < j + (n + 1) := by omega
      have h3 : (tick_body cb j (tbl j)).2.filter (fun ev => ev.timer == j) =
          (tick_body cb j (tbl j)).2 := by
        rw [List.filter_eq_self]
        intro ev hev
        simp [tick_body_timer cb j (tbl j) ev hev]
      simp [h1, h2, h3]
    · have h3 : (tick_body cb a (tbl a)).2.filter (fun ev => ev.timer == j) = [] := by
        rw [List.filter_eq_nil_iff]
        intro ev hev
        have := tick_body_timer cb a (tbl a) ev hev
        simp only [beq_iff_eq]
        omega
      rw [Function.update_noteq hj, h3]
      by_cases hc : a ≤ j ∧ j < a + (n + 1)
      · have h1 : a + 1 ≤ j ∧ j < a + 1 + n := by omega
        simp [h1, hc]
      · have h1 : ¬ (a + 1 ≤ j ∧ j < a + 1 + n) := by omega
        simp [h1, hc]

theorem handler_slot (cb : timer_event → Nat) (s : State) (j : Nat) (hj : j < 16) :
    (_frt_compare_output_handler cb s).1._timer_states j =
      (tick_body cb j (s._timer_states j)).1 := by
  have h : 0 ≤ j ∧ j < 0 + 16 := by omega
  simp [_frt_compare_output_handler, TIMER_MAX_TIMERS_COUNT,
    (tick_loop_spec cb 16 0 s._timer_states j).1, h]

theorem handler_fired (cb : timer_event → Nat) (s : State) (j : Nat) (hj : j < 16) :
    (_frt_compare_output_handler cb s).2.filter (fun ev => ev.timer == j) =
      (tick_body cb j (s._timer_states j)).2 := by
  have h : 0 ≤ j ∧ j < 0 + 16 := by omega
  simp only [_frt_compare_output_handler, TIMER_MAX_TIMERS_COUNT]
  rw [(tick_loop_spec cb 16 0 s._timer_states j).2]
  simp [h]

theorem handler_statics (cb : timer_event → Nat) (s : State) :
    (_frt_compare_output_handler cb s).1._next_timer = s._next_timer ∧
      (_frt_compare_output_handler cb s).1._id_count = s._id_count ∧
      (_frt_compare_output_handler cb s).1.i_mask = s.i_mask := by
  simp [_frt_compare_output_handler]

/-! ## `timer_add` and `timer_remove` -/

theorem and_1F_of_le (x : Nat) (hx : x ≤ 16) : x &&& 0x1F = x := by
  interval_cases x <;> rfl

theorem and_1F_of_lt (x : Nat) (hx : x < 16) : x &&& 0x1F = x :=
  and_1F_of_le x (Nat.le_of_lt hx)

theorem add_select_mask (s : State) (m : Nat) :
    add_select { s with i_mask := m } = add_select s := rfl

/-- The slot pointer chosen by `timer_add` lies in the array. -/
theorem add_select_lt (s : State) (hx : (s._next_timer &&& 0x1F) < 16) :
    (add_select s).1 < 16 := by
  unfold add_select
  by_cases hv : (s._timer_states (s._next_timer &&& 0x1F)).valid = true
  · simp only [hv, if_true, TIMER_MAX_TIMERS_COUNT]
    rcases add_scan_spec s._timer_states 16 0 (s._next_timer &&& 0x1F) with h | h
    · omega
    · have := h.2.1 (by omega)
      omega
  · simp only [hv, if_false]
    exact hx

/-- The scan never yields a value of `_next_timer` above the table size. -/
theorem add_select_scan_le (s : State)
    (hv : (s._timer_states (s._next_timer &&& 0x1F)).valid = true) :
    (add_select s).2 ≤ 16 := by
  unfold add_select
  simp only [hv, if_true, TIMER_MAX_TIMERS_COUNT]
  rcases add_scan_spec s._timer_states 16 0 (s._next_timer &&& 0x1F) with h | h
  · omega
  · omega

/-- With a free slot in the table, the slot chosen by `timer_add` is free. -/
theorem add_select_free (s : State)
    (hfree : ∃ j, j < 16 ∧ (s._timer_states j).valid = false) :
    (s._timer_states (add_select s).1).valid = false := by
  unfold add_select
  by_cases hv : (s._timer_states (s._next_timer &&& 0x1F)).valid = true
  · simp only [hv, if_true, TIMER_MAX_TIMERS_COUNT]
    rcases add_scan_spec s._timer_states 16 0 (s._next_timer &&& 0x1F) with h | h
    · rw [h.2.2.1]; exact h.2.2.2.1
    · obtain ⟨j, hj, hjv⟩ := hfree
      have := h.2.2.2 j (by omega) (by omega)
      rw [hjv] at this
      exact absurd this (by decide)
  · simp only [hv, if_false]
    simpa using hv

/-- With a full table and an in-bounds valid hint slot, `timer_add` selects
slot 15 and sets `_next_timer` to 16. -/
theorem add_select_full (s : State)
    (hfull : ∀ j, j < 16 → (s._timer_states j).valid = true)
    (hx : (s._next_timer &&& 0x1F) < 16) :
    add_select s = (15, 16) := by
  have hv := hfull _ hx
  unfold add_select
  simp only [hv, if_true, TIMER_MAX_TIMERS_COUNT]
  rcases add_scan_spec s._timer_states 16 0 (s._next_timer &&& 0x1F) with h | h
  · have := hfull _ (by omega : (add_scan s._timer_states 16 0 (s._next_timer &&& 0x1F)).1 < 16)
    rw [h.2.2.2.1] at this
    exact absurd this (by decide)
  · have h2 := h.2.1 (by omega)
    have h1 := h.1
    ext
    · simp [h2]
    · simp [h1]

/-- The successful path of `timer_add`. -/
theorem timer_add_ok (t : timer) (s : State) (hc : t.callback ≠ 0) (hi : t.interval ≠ 0)
    (hx : (s._next_timer &&& 0x1F) < 16) (hn : (add_select s).2 ≤ 16) :
    timer_add t s = some (0, registered t s) := by
  have hn2 : ¬ (add_select s).2 > 16 := by omega
  simp [timer_add, registered, hc, hi, hx, add_select_mask, TIMER_MAX_TIMERS_COUNT, hn2]

/-- Every defined outcome of `timer_add` is one of its error returns, which
leave the slots and the id counter alone and the mask at `0x0F`, or the
successful path. -/
theorem timer_add_inv (t : timer) (s : State) (r : Int) (s1 : State)
    (h : timer_add t s = some (r, s1)) :
    (r = -1 ∧ s1._timer_states = s._timer_states ∧ s1._id_count = s._id_count ∧
        s1.i_mask = 0x0F) ∨
      (r = 0 ∧ t.callback ≠ 0 ∧ t.interval ≠ 0 ∧ (s._next_timer &&& 0x1F) < 16 ∧
        (add_select s).2 ≤ 16 ∧ s1 = registered t s) := by
  by_cases hc : t.callback = 0
  · simp only [timer_add, hc, if_true, Option.some.injEq, Prod.mk.injEq] at h
    left
    obtain ⟨h1, h2⟩ := h
    subst h2
    exact ⟨h1.symm, rfl, rfl, rfl⟩
  · by_cases hi : t.interval = 0
    · simp only [timer_add, hc, hi, if_true, if_false, Option.some.injEq, Prod.mk.injEq] at h
      left
      obtain ⟨h1, h2⟩ := h
      subst h2
      exact ⟨h1.symm, rfl, rfl, rfl⟩
    · by_cases hx : (s._next_timer &&& 0x1F) < 16
      · by_cases hn : (add_select s).2 ≤ 16
        · rw [timer_add_ok t s hc hi hx hn] at h
          simp only [Option.some.injEq, Prod.mk.injEq] at h
          right
          exact ⟨h.1.symm, hc, hi, hx, hn, h.2.symm⟩
        · have hn2 : (add_select s).2 > 16 := by omega
          simp only [timer_add, hc, hi, hx, if_true, if_false, add_select_mask,
            TIMER_MAX_TIMERS_COUNT, hn2, Option.some.injEq, Prod.mk.injEq] at h
          left
          obtain ⟨h1, h2⟩ := h
          subst h2
          exact ⟨h1.symm, rfl, rfl, rfl⟩
      · simp [timer_add, hc, hi, hx, TIMER_MAX_TIMERS_COUNT] at h

/-- With the hint at most 16 before the call, `timer_add` leaves it at most
16, and a request with a callback and a nonzero interval is never answered
with `-1`: the return at line 165 is not taken. -/
theorem timer_add_hint (t : timer) (s : State) (r : Int) (s1 : State)
    (h : timer_add t s = some (r, s1)) (hle : s._next_timer ≤ 16) :
    s1._next_timer ≤ 16 ∧ (t.callback ≠ 0 → t.interval ≠ 0 → r = 0) := by
  by_cases hc : t.callback = 0
  · simp only [timer_add, hc, if_true, Option.some.injEq, Prod.mk.injEq] at h
    obtain ⟨_, h2⟩ := h
    subst h2
    exact ⟨hle, fun hn => absurd hc hn⟩
  · by_cases hi : t.interval = 0
    · simp only [timer_add, hc, hi, if_true, if_false, Option.some.injEq, Prod.mk.injEq] at h
      obtain ⟨_, h2⟩ := h
      subst h2
      exact ⟨hle, fun _ hn => absurd hi hn⟩
    · by_cases hx : (s._next_timer &&& 0x1F) < 16
      · have hlt : s._next_timer < 16 := by
          rw [and_1F_of_le _ hle] at hx
          exact hx
        have hsel : (add_select s).2 ≤ 16 := by
          by_cases hv : (s._timer_states (s._next_timer &&& 0x1F)).valid = true
          · exact add_select_scan_le s hv
          · have hv2 : (s._timer_states (s._next_timer &&& 0x1F)).valid = false := by
              simpa using hv
            have e : (add_select s).2 = (s._next_timer + 1) % UINT32_MOD := by
              simp [add_select, hv2]
            rw [e, UINT32_MOD]
            omega
        rw [timer_add_ok t s hc hi hx hsel] at h
        simp only [Option.some.injEq, Prod.mk.injEq] at h
        obtain ⟨h1, h2⟩ := h
        subst h2
        exact ⟨hsel, fun _ _ => h1.symm⟩
      · simp [timer_add, hc, hi, hx, TIMER_MAX_TIMERS_COUNT] at h

/-- The outcome of `timer_remove` when some valid slot carries the id. -/
theorem timer_remove_found (id : Nat) (s : State)
    (h : ∃ j, j < 16 ∧ (s._timer_states j).valid = true ∧ (s._timer_states j).id = id) :
    remove_scan s._timer_states id 16 0 < 16 ∧
      (s._timer_states (remove_scan s._timer_states id 16 0)).valid = true ∧
      (s._timer_states (remove_scan s._timer_states id 16 0)).id = id ∧
      timer_remove id s =
        (0,
          { _timer_states :=
              Function.update s._timer_states (remove_scan s._timer_states id 16 0)
                { s._timer_states (remove_scan s._timer_states id 16 0) with valid := false }
            _next_timer := remove_scan s._timer_states id 16 0
            _id_count := s._id_count
            i_mask := s.i_mask }) := by
  rcases remove_scan_spec s._timer_states id 16 0 with hs | hs
  · obtain ⟨h1, h2, h3, h4⟩ := hs
    have hne : remove_scan s._timer_states id 16 0 ≠ 16 := by omega
    refine ⟨by omega, h3, h4, ?_⟩
    simp [timer_remove, TIMER_MAX_TIMERS_COUNT, hne]
  · obtain ⟨j, hj, hjv, hji⟩ := h
    exact absurd ⟨hjv, hji⟩ (hs.2 j (by omega) (by omega))

/-- The outcome of `timer_remove` when no valid slot carries the id: the error
return, with the state as it was. -/
theorem timer_remove_missing (id : Nat) (s : State)
    (h : ∀ j, j < 16 → ¬ ((s._timer_states j).valid = true ∧ (s._timer_states j).id = id)) :
    timer_remove id s = (-1, s) := by
  rcases remove_scan_spec s._timer_states id 16 0 with hs | hs
  · exact absurd ⟨hs.2.2.1, hs.2.2.2⟩ (h _ (by omega))
  · have he : remove_scan s._timer_states id 16 0 = 16 := by omega
    simp [timer_remove, TIMER_MAX_TIMERS_COUNT, he]

/-- Either way through `timer_remove`. -/
theorem timer_remove_cases (id : Nat) (s : State) :
    timer_remove id s = (-1, s) ∨
      ∃ k, k < 16 ∧ (s._timer_states k).valid = true ∧ (s._timer_states k).id = id ∧
        timer_remove id s =
          (0,
            { _timer_states :=
                Function.update s._timer_states k { s._timer_states k with valid := false }
              _next_timer := k
              _id_count := s._id_count
              i_mask := s.i_mask }) := by
  by_cases h : ∃ j, j < 16 ∧ (s._timer_states j).valid = true ∧ (s._timer_states j).id = id
  · right
    obtain ⟨h1, h2, h3, h4⟩ := timer_remove_found id s h
    exact ⟨_, h1, h2, h3, h4⟩
  · left
    apply timer_remove_missing
    intro j hj hc
    exact h ⟨j, hj, hc.1, hc.2⟩

/-- Counting valid slots after one slot has been rewritten. -/
theorem countP_update (tbl : Nat → timer_state) (p : Nat) (v : timer_state) (n : Nat) :
    (List.range n).countP (fun i => (Function.update tbl p v i).valid) +
        (if p < n ∧ (tbl p).valid = true then 1 else 0) =
      (List.range n).countP (fun i => (tbl i).valid) +
        (if p < n ∧ v.valid = true then 1 else 0) := by
  induction n with
  | zero => simp
  | succ n ih =>
    rw [List.range_succ, List.countP_append, List.countP_append]
    simp only [List.countP_cons, List.countP_nil, zero_add]
    by_cases hp : p = n
    · subst hp
      have h0 : ¬ (p < p) := lt_irrefl p
      simp only [h0, false_and, if_false, add_zero] at ih
      simp only [Function.update_same, Nat.lt_succ_self, true_and]
      rw [ih]
      omega
    · simp only [Function.update_noteq (Ne.symm hp)]
      by_cases hlt : p < n
      · have h1 : p < n + 1 := by omega
        simp only [hlt, h1, true_and] at ih ⊢
        omega
      · have h1 : ¬ p < n + 1 := by omega
        simp only [hlt, h1, false_and, if_false, add_zero] at ih ⊢
        omega

theorem registered_slot (t : timer) (s : State) :
    (registered t s)._timer_states (add_select s).1 =
      ⟨true, s._id_count, t, t.interval⟩ := by
  simp [registered]

theorem registered_other (t : timer) (s : State) (j : Nat) (hj : j ≠ (add_select s).1) :
    (registered t s)._timer_states j = s._timer_states j := by
  simp [registered, Function.update_noteq hj]

theorem occupancy_registered (t : timer) (s : State) (hx : (s._next_timer &&& 0x1F) < 16)
    (hfree : (s._timer_states (add_select s).1).valid = false) :
    occupancy (registered t s) = occupancy s + 1 := by
  have h := countP_update s._timer_states (add_select s).1
    ⟨true, s._id_count, t, t.interval⟩ 16
  have hlt := add_select_lt s hx
  simp only [hlt, hfree, true_and, Bool.false_eq_true, if_false, if_true, add_zero] at h
  simpa [occupancy, registered, TIMER_MAX_TIMERS_COUNT] using h

/-! ## Invariants along a run -/

/-- Induction along a run: a property indexed by the number of
registrations made so far holds after the run when every defined step
preserves it. -/
theorem run_induct (G : (timer_event → Nat) → Prop) (P : Nat → State → Prop)
    (hadd : ∀ n t s r s1, P n s → timer_add t s = some (r, s1) →
      P (n + (if r = 0 then 1 else 0)) s1)
    (hrem : ∀ n id s, P n s → P n (timer_remove id s).2)
    (htick : ∀ n cb s, G cb → P n s → P n (_frt_compare_output_handler cb s).1) :
    ∀ (ops : List Step) (n : Nat) (s s1 : State), all_ticks G ops → P n s →
      run ops s = some s1 → P (n + registrations ops s) s1 := by
  intro ops
  induction ops with
  | nil =>
    intro n s s1 _ hp hrun
    simp only [run, Option.some.injEq] at hrun
    subst hrun
    simpa [registrations] using hp
  | cons a rest ih =>
    intro n s s1 hg hp hrun
    cases a with
    | add t =>
      simp only [run, step] at hrun
      cases hta : timer_add t s with
      | none => rw [hta] at hrun; simp at hrun
      | some rs =>
        obtain ⟨r, s2⟩ := rs
        rw [hta] at hrun
        simp only [Option.map_some', Option.some_bind] at hrun
        have h2 := ih (n + (if r = 0 then 1 else 0)) s2 s1 hg (hadd n t s r s2 hp hta) hrun
        have e : registrations (Step.add t :: rest) s =
            (if r = 0 then 1 else 0) + registrations rest s2 := by
          simp only [registrations, hta]
        rw [e, ← Nat.add_assoc]
        exact h2
    | remove id =>
      simp only [run, step, Option.some_bind] at hrun
      exact ih n _ s1 hg (hrem n id s hp) hrun
    | tick cb =>
      simp only [run, step, Option.some_bind] at hrun
      exact ih n _ s1 hg.2 (htick n cb s hg.1 hp) hrun

theorem uint32_dec_pos (x : Nat) (hx : 1 ≤ x) : uint32_dec x = x - 1 := by
  have h0 : x ≠ 0 := by omega
  simp [uint32_dec, h0]

theorem tick_body_armed (cb : timer_event → Nat) (i : Nat) (ts : timer_state)
    (h : slot_armed ts) : slot_armed (tick_body cb i ts).1 := by
  unfold slot_armed at h ⊢
  rcases tick_body_cases cb i ts with c | c | c | c
  · rw [c.2]; exact h
  · rw [c.2.2]
    intro _
    have := h c.1
    exact ⟨this.1, this.2.1, Nat.one_le_iff_ne_zero.mpr c.2.1⟩
  · rw [c.2.2.2]
    intro _
    have := h c.1
    exact ⟨this.1, this.2.1, Nat.succ_le_of_lt c.2.2.1⟩
  · rw [c.2.2.2]
    intro hv
    exact absurd hv Bool.false_ne_true

theorem tick_body_within (cb : timer_event → Nat) (i : Nat) (ts : timer_state)
    (hcb : ∀ ev, cb ev ≤ ev.next_interval) (ha : slot_armed ts) (h : slot_within ts) :
    slot_within (tick_body cb i ts).1 := by
  unfold slot_within at h ⊢
  unfold slot_armed at ha
  rcases tick_body_cases cb i ts with c | c | c | c
  · rw [c.2]; exact h
  · rw [c.2.2]
    intro _
    have h1 := (ha c.1).2.2
    have h2 := h c.1
    show uint32_dec ts.remaining ≤ ts.event.interval
    rw [uint32_dec_pos _ h1]
    omega
  · rw [c.2.2.2]
    intro _
    have h1 := hcb ⟨ts.id, i, ts.event.work, ts.event.interval⟩
    have h2 : cb ⟨ts.id, i, ts.event.work, ts.event.interval⟩ % UINT32_MOD ≤
        cb ⟨ts.id, i, ts.event.work, ts.event.interval⟩ := Nat.mod_le _ _
    exact le_trans h2 h1
  · rw [c.2.2.2]
    intro hv
    exact absurd hv Bool.false_ne_true

/-- The loop body keeps the id and the stored request of a slot and never
makes an invalid slot valid. -/
theorem tick_body_keeps (cb : timer_event → Nat) (i : Nat) (ts : timer_state) :
    (tick_body cb i ts).1.id = ts.id ∧ (tick_body cb i ts).1.event = ts.event ∧
      ((tick_body cb i ts).1.valid = true → ts.valid = true) := by
  rcases tick_body_cases cb i ts with c | c | c | c
  · rw [c.2]; exact ⟨rfl, rfl, fun h => h⟩
  · rw [c.2.2]; exact ⟨rfl, rfl, fun h => h⟩
  · rw [c.2.2.2]; exact ⟨rfl, rfl, fun h => h⟩
  · rw [c.2.2.2]; exact ⟨rfl, rfl, fun _ => c.1⟩

/-- Along every run from `timer_init`, the slots of the table are armed. -/
theorem run_armed (ops : List Step) (s : State)
    (hrun : run ops (timer_init boot) = some s) :
    ∀ j, j < 16 → slot_armed (s._timer_states j) := by
  have h := run_induct (fun _ => True)
    (fun _ s => ∀ j, j < 16 → slot_armed (s._timer_states j))
    (by
      intro n t s r s1 hp hta j hj
      rcases timer_add_inv t s r s1 hta with c | c
      · rw [c.2.1]; exact hp j hj
      · obtain ⟨_, hc, hi, _, _, hs⟩ := c
        subst hs
        by_cases hjp : j = (add_select s).1
        · rw [hjp, registered_slot]
          intro _
          exact ⟨hc, Nat.pos_of_ne_zero hi, Nat.pos_of_ne_zero hi⟩
        · rw [registered_other t s j hjp]; exact hp j hj)
    (by
      intro n id s hp j hj
      rcases timer_remove_cases id s with c | ⟨k, _, _, _, c⟩
      · rw [c]; exact hp j hj
      · rw [c]
        by_cases hjk : j = k
        · subst hjk
          intro hv
          simp at hv
        · simp only [Function.update_noteq hjk]
          exact hp j hj)
    (by
      intro n cb s _ hp j hj
      rw [handler_slot cb s j hj]
      exact tick_body_armed cb j _ (hp j hj))
    ops 0 (timer_init boot) s
  have hg : all_ticks (fun _ => True) ops := by
    clear h hrun
    induction ops with
    | nil => trivial
    | cons a rest ih =>
      cases a with
      | add t => exact ih
      | remove id => exact ih
      | tick cb => exact ⟨trivial, ih⟩
  apply h hg _ hrun
  intro j hj hv
  rw [timer_init_valid boot j hj] at hv
  exact absurd hv (by decide)

/-- Along every run from `timer_init` whose callbacks never raise
`next_interval`, the countdown of a valid slot stays within its interval. -/
theorem run_within (ops : List Step) (s : State)
    (hrun : run ops (timer_init boot) = some s) (hb : rearm_bounded ops) :
    ∀ j, j < 16 → slot_within (s._timer_states j) := by
  have h := run_induct (fun cb => ∀ ev, cb ev ≤ ev.next_interval)
    (fun _ s => ∀ j, j < 16 → slot_armed (s._timer_states j) ∧ slot_within (s._timer_states j))
    (by
      intro n t s r s1 hp hta j hj
      rcases timer_add_inv t s r s1 hta with c | c
      · rw [c.2.1]; exact hp j hj
      · obtain ⟨_, hc, hi, _, _, hs⟩ := c
        subst hs
        by_cases hjp : j = (add_select s).1
        · rw [hjp, registered_slot]
          exact ⟨fun _ => ⟨hc, Nat.pos_of_ne_zero hi, Nat.pos_of_ne_zero hi⟩,
            fun _ => le_refl _⟩
        · rw [registered_other t s j hjp]; exact hp j hj)
    (by
      intro n id s hp j hj
      rcases timer_remove_cases id s with c | ⟨k, _, _, _, c⟩
      · rw [c]; exact hp j hj
      · rw [c]
        by_cases hjk : j = k
        · subst hjk
          constructor <;> intro hv <;> simp at hv
        · simp only [Function.update_noteq hjk]
          exact hp j hj)
    (by
      intro n cb s hcb hp j hj
      rw [handler_slot cb s j hj]
      exact ⟨tick_body_armed cb j _ (hp j hj).1,
        tick_body_within cb j _ hcb (hp j hj).1 (hp j hj).2⟩)
    ops 0 (timer_init boot) s hb
  intro j hj
  refine (h ?_ hrun j hj).2
  intro j hj
  constructor <;> intro hv <;> rw [timer_init_valid boot j hj] at hv <;>
    exact absurd hv (by decide)

/-- Along every run from `timer_init` with fewer than 2^32 registrations, the
id counter has not wrapped, ids of valid slots lie below it and are pairwise
distinct. -/
theorem run_ids (ops : List Step) (s : State)
    (hn : registrations ops (timer_init boot) < UINT32_MOD)
    (hrun : run ops (timer_init boot) = some s) :
    s._id_count ≤ registrations ops (timer_init boot) ∧ ids_below s ∧ ids_distinct s := by
  have h := run_induct (fun _ => True)
    (fun n s => n < UINT32_MOD → s._id_count ≤ n ∧ ids_below s ∧ ids_distinct s)
    (by
      intro n t s r s1 hp hta hlt
      have hle : n ≤ n + (if r = 0 then 1 else 0) := Nat.le_add_right _ _
      obtain ⟨h1, h2, h3⟩ := hp (lt_of_le_of_lt hle hlt)
      rcases timer_add_inv t s r s1 hta with c | c
      · refine ⟨by rw [c.2.2.1]; exact le_trans h1 hle, ?_, ?_⟩
        · intro j hj hv
          rw [c.2.1] at hv ⊢
          rw [c.2.2.1]
          exact h2 j hj hv
        · intro i j hi hj hij hvi hvj
          rw [c.2.1] at hvi hvj ⊢
          exact h3 i j hi hj hij hvi hvj
      · obtain ⟨hr0, _, _, _, _, hs⟩ := c
        subst hs
        subst hr0
        rw [if_pos rfl] at hlt ⊢
        have hid : (registered t s)._id_count = s._id_count + 1 := by
          show (s._id_count + 1) % UINT32_MOD = s._id_count + 1
          exact Nat.mod_eq_of_lt (by omega)
        have hslot : ∀ j, j < 16 → ((registered t s)._timer_states j).valid = true →
            (j = (add_select s).1 ∧ ((registered t s)._timer_states j).id = s._id_count) ∨
              (j ≠ (add_select s).1 ∧ (s._timer_states j).valid = true ∧
                ((registered t s)._timer_states j).id = (s._timer_states j).id ∧
                (s._timer_states j).id < s._id_count) := by
          intro j hj hv
          by_cases hjp : j = (add_select s).1
          · left
            rw [hjp, registered_slot]
            exact ⟨rfl, rfl⟩
          · right
            rw [registered_other t s j hjp] at hv ⊢
            exact ⟨hjp, hv, rfl, h2 j hj hv⟩
        refine ⟨by omega, ?_, ?_⟩
        · intro j hj hv
          rcases hslot j hj hv with c | c <;> omega
        · intro i j hi hj hij hvi hvj
          rcases hslot i hi hvi with ci | ci <;> rcases hslot j hj hvj with cj | cj
          · omega
          · omega
          · omega
          · rw [ci.2.2.1, cj.2.2.1]
            exact h3 i j hi hj hij ci.2.1 cj.2.1)
    (by
      intro n id s hp hlt
      obtain ⟨h1, h2, h3⟩ := hp hlt
      rcases timer_remove_cases id s with c | ⟨k, _, _, _, c⟩
      · rw [c]; exact ⟨h1, h2, h3⟩
      · rw [c]
        have hslot : ∀ j, ((Function.update s._timer_states k
              { s._timer_states k with valid := false }) j).valid = true →
            (s._timer_states j).valid = true ∧
              ((Function.update s._timer_states k
                { s._timer_states k with valid := false }) j).id = (s._timer_states j).id := by
          intro j hv
          by_cases hjk : j = k
          · subst hjk
            simp at hv
          · rw [Function.update_noteq hjk] at hv ⊢
            exact ⟨hv, rfl⟩
        refine ⟨h1, ?_, ?_⟩
        · intro j hj hv
          have := hslot j hv
          show (Function.update s._timer_states k _ j).id < s._id_count
          rw [this.2]
          exact h2 j hj this.1
        · intro i j hi hj hij hvi hvj
          have ci := hslot i hvi
          have cj := hslot j hvj
          show (Function.update s._timer_states k _ i).id ≠
            (Function.update s._timer_states k _ j).id
          rw [ci.2, cj.2]
          exact h3 i j hi hj hij ci.1 cj.1)
    (by
      intro n cb s _ hp hlt
      obtain ⟨h1, h2, h3⟩ := hp hlt
      have hst := handler_statics cb s
      refine ⟨by rw [hst.2.1]; exact h1, ?_, ?_⟩
      · intro j hj hv
        rw [handler_slot cb s j hj] at hv ⊢
        have k := tick_body_keeps cb j (s._timer_states j)
        rw [k.1, hst.2.1]
        exact h2 j hj (k.2.2 hv)
      · intro i j hi hj hij hvi hvj
        rw [handler_slot cb s i hi] at hvi ⊢
        rw [handler_slot cb s j hj] at hvj ⊢
        have ki := tick_body_keeps cb i (s._timer_states i)
        have kj := tick_body_keeps cb j (s._timer_states j)
        rw [ki.1, kj.1]
        exact h3 i j hi hj hij (ki.2.2 hvi) (kj.2.2 hvj))
    ops 0 (timer_init boot) s
  have hg : all_ticks (fun _ => True) ops := by
    clear h hrun hn
    induction ops with
    | nil => trivial
    | cons a rest ih =>
      cases a with
      | add t => exact ih
      | remove id => exact ih
      | tick cb => exact ⟨trivial, ih⟩
  have h0 : (fun n s => n < UINT32_MOD → s._id_count ≤ n ∧ ids_below s ∧ ids_distinct s) 0
      (timer_init boot) := by
    intro _
    refine ⟨le_refl _, ?_, ?_⟩
    · intro j hj hv
      rw [timer_init_valid boot j hj] at hv
      exact absurd hv (by decide)
    · intro i j hi _ _ hv
      rw [timer_init_valid boot i hi] at hv
      exact absurd hv (by decide)
  have h1 := h hg h0 hrun
  simp only [zero_add] at h1
  exact h1 hn

/-- Along every run from `timer_init` the next-free hint stays at most 16. -/
theorem run_hint (ops : List Step) (s : State)
    (hrun : run ops (timer_init boot) = some s) : s._next_timer ≤ 16 := by
  have h := run_induct (fun _ => True) (fun _ s => s._next_timer ≤ 16)
    (by
      intro n t s r s1 hp hta
      exact (timer_add_hint t s r s1 hta hp).1)
    (by
      intro n id s hp
      rcases timer_remove_cases id s with c | ⟨k, hk, _, _, c⟩
      · rw [c]; exact hp
      · rw [c]
        exact Nat.le_of_lt hk)
    (by
      intro n cb s _ hp
      rw [(handler_statics cb s).1]
      exact hp)
    ops 0 (timer_init boot) s
  have hg : all_ticks (fun _ => True) ops := by
    clear h hrun
    induction ops with
    | nil => trivial
    | cons a rest ih =>
      cases a with
      | add t => exact ih
      | remove id => exact ih
      | tick cb => exact ⟨trivial, ih⟩
  exact h hg (by decide) hrun

/-- In a state reached from `timer_init`, `timer_add` of a request with a
callback and a nonzero interval either reads outside the array or returns
`0`; on a full table it then has rewritten slot 15.  It never returns the
error value. -/
theorem reachable_add_never_reports_full (ops : List Step) (s : State) (t : timer)
    (hrun : run ops (timer_init boot) = some s) (hc : t.callback ≠ 0) (hi : t.interval ≠ 0) :
    timer_add t s = none ∨
      (timer_add t s = some (0, registered t s) ∧
        ((∀ j, j < 16 → (s._timer_states j).valid = true) →
          (registered t s)._timer_states 15 = ⟨true, s._id_count, t, t.interval⟩)) := by
  cases hta : timer_add t s with
  | none => exact Or.inl rfl
  | some rs =>
    right
    obtain ⟨r, s1⟩ := rs
    have h0 := (timer_add_hint t s r s1 hta (run_hint ops s hrun)).2 hc hi
    subst h0
    rcases timer_add_inv t s 0 s1 hta with c | c
    · exact absurd c.1 (by decide)
    · obtain ⟨_, _, _, hx, _, hs1⟩ := c
      subst hs1
      refine ⟨rfl, fun hfull => ?_⟩
      have e := add_select_full s hfull hx
      have hs := registered_slot t s
      rw [e] at hs
      exact hs

/-- Function `timer_remove` restores the interrupt mask on both of its
paths, and so does the successful path of `timer_add`. -/
theorem mask_restored (id : Nat) (t : timer) (s : State) :
    (timer_remove id s).2.i_mask = s.i_mask ∧ (registered t s).i_mask = s.i_mask := by
  refine ⟨?_, rfl⟩
  rcases timer_remove_cases id s with c | ⟨k, _, _, _, c⟩
  · rw [c]
  · rw [c]

/-! ## Consecutive compare interrupts -/

theorem ticks_slot (cbs : Nat → timer_event → Nat) (s : State) (n j : Nat) (hj : j < 16) :
    (ticks cbs (n + 1) s)._timer_states j =
      (tick_body (cbs (n + 1)) j ((ticks cbs n s)._timer_states j)).1 := by
  show (_frt_compare_output_handler (cbs (n + 1)) (ticks cbs n s)).1._timer_states j = _
  exact handler_slot _ _ j hj

theorem fired_by_succ (cbs : Nat → timer_event → Nat) (s : State) (n j : Nat) (hj : j < 16) :
    fired_by cbs s j (n + 1) =
      (tick_body (cbs (n + 1)) j ((ticks cbs n s)._timer_states j)).2 := by
  unfold fired_by fired
  simp only [Nat.add_sub_cancel]
  exact handler_fired _ _ j hj

/-- Compare interrupts keep the id of every slot and make no slot valid. -/
theorem ticks_keeps (cbs : Nat → timer_event → Nat) (s : State) (n j : Nat) (hj : j < 16) :
    ((ticks cbs n s)._timer_states j).id = (s._timer_states j).id ∧
      (((ticks cbs n s)._timer_states j).valid = true → (s._timer_states j).valid = true) := by
  induction n with
  | zero => exact ⟨rfl, fun h => h⟩
  | succ n ih =>
    rw [ticks_slot cbs s n j hj]
    have k := tick_body_keeps (cbs (n + 1)) j ((ticks cbs n s)._timer_states j)
    exact ⟨k.1.trans ih.1, fun h => ih.2 (k.2.2 h)⟩

theorem tick_body_lit_invalid (cb : timer_event → Nat) (j id : Nat) (t : timer) (r : Nat) :
    tick_body cb j ⟨false, id, t, r⟩ = (⟨false, id, t, r⟩, []) := by
  simp [tick_body]

theorem tick_body_lit_count (cb : timer_event → Nat) (j id : Nat) (t : timer) (r : Nat)
    (hr : 2 ≤ r) : tick_body cb j ⟨true, id, t, r⟩ = (⟨true, id, t, r - 1⟩, []) := by
  have h0 : r ≠ 0 := by omega
  have h1 : r - 1 ≠ 0 := by omega
  simp [tick_body, uint32_dec, h0, h1]

theorem tick_body_lit_rearm (cb : timer_event → Nat) (j id : Nat) (t : timer)
    (hc : 0 < cb ⟨id, j, t.work, t.interval⟩ % UINT32_MOD) :
    tick_body cb j ⟨true, id, t, 1⟩ =
      (⟨true, id, t, cb ⟨id, j, t.work, t.interval⟩ % UINT32_MOD⟩,
        [⟨id, j, t.work, t.interval⟩]) := by
  simp [tick_body, uint32_dec, hc]

theorem tick_body_lit_stop (cb : timer_event → Nat) (j id : Nat) (t : timer)
    (hc : cb ⟨id, j, t.work, t.interval⟩ % UINT32_MOD = 0) :
    tick_body cb j ⟨true, id, t, 1⟩ = (⟨false, id, t, 0⟩, [⟨id, j, t.work, t.interval⟩]) := by
  simp [tick_body, uint32_dec, hc]

theorem succ_mod_cases (n k : Nat) :
    (n % k + 1 < k ∧ (n + 1) % k = n % k + 1) ∨ (n % k + 1 = k ∧ (n + 1) % k = 0) ∨ k = 0 := by
  by_cases hk : k = 0
  · exact Or.inr (Or.inr hk)
  · have hlt : n % k < k := Nat.mod_lt n (Nat.pos_of_ne_zero hk)
    have e : (n + 1) % k = (n % k + 1) % k := (Nat.mod_add_mod n k 1).symm
    by_cases h : n % k + 1 < k
    · left
      exact ⟨h, by rw [e, Nat.mod_eq_of_lt h]⟩
    · right; left
      have h2 : n % k + 1 = k := by omega
      refine ⟨h2, ?_⟩
      rw [e, h2, Nat.mod_self]

/-- A slot armed with `remaining = interval = k` whose callback leaves
`next_interval` alone holds `k - n % k` after `n` compare interrupts. -/
theorem periodic_slot (cbs : Nat → timer_event → Nat) (s : State) (j id : Nat) (t : timer)
    (hj : j < 16) (hk : 0 < t.interval) (hwf : t.interval < UINT32_MOD)
    (hs : s._timer_states j = ⟨true, id, t, t.interval⟩)
    (hcb : ∀ n ev, ev.timer = j → cbs n ev = ev.next_interval) (n : Nat) :
    (ticks cbs n s)._timer_states j = ⟨true, id, t, t.interval - n % t.interval⟩ := by
  induction n with
  | zero =>
    show s._timer_states j = _
    rw [hs, Nat.zero_mod, Nat.sub_zero]
  | succ n ih =>
    rw [ticks_slot cbs s n j hj, ih]
    have hlt : n % t.interval < t.interval := Nat.mod_lt n hk
    rcases succ_mod_cases n t.interval with c | c | c
    · rw [tick_body_lit_count _ _ _ _ _ (by omega), c.2]
      show (⟨true, id, t, t.interval - n % t.interval - 1⟩ : timer_state) = _
      have e : t.interval - n % t.interval - 1 = t.interval - (n % t.interval + 1) := by omega
      rw [e]
    · have e : t.interval - n % t.interval = 1 := by omega
      have hc : cbs (n + 1) ⟨id, j, t.work, t.interval⟩ % UINT32_MOD = t.interval := by
        rw [hcb (n + 1) ⟨id, j, t.work, t.interval⟩ rfl]
        exact Nat.mod_eq_of_lt hwf
      rw [e, tick_body_lit_rearm _ _ _ _ (by rw [hc]; exact hk), c.2, hc, Nat.sub_zero]
    · omega

/-- The events such a slot hands out: one at every `k`-th compare interrupt
and none at the others. -/
theorem periodic_fired (cbs : Nat → timer_event → Nat) (s : State) (j id : Nat) (t : timer)
    (hj : j < 16) (hk : 0 < t.interval) (hwf : t.interval < UINT32_MOD)
    (hs : s._timer_states j = ⟨true, id, t, t.interval⟩)
    (hcb : ∀ n ev, ev.timer = j → cbs n ev = ev.next_interval) (n : Nat) :
    fired_by cbs s j (n + 1) =
      if t.interval ∣ n + 1 then [⟨id, j, t.work, t.interval⟩] else [] := by
  rw [fired_by_succ cbs s n j hj, periodic_slot cbs s j id t hj hk hwf hs hcb n]
  have hlt : n % t.interval < t.interval := Nat.mod_lt n hk
  rcases succ_mod_cases n t.interval with c | c | c
  · have hnd : ¬ t.interval ∣ n + 1 := by
      rw [Nat.dvd_iff_mod_eq_zero, c.2]
      omega
    rw [tick_body_lit_count _ _ _ _ _ (by omega), if_neg hnd]
  · have e : t.interval - n % t.interval = 1 := by omega
    have hd : t.interval ∣ n + 1 := Nat.dvd_of_mod_eq_zero c.2
    have hc : cbs (n + 1) ⟨id, j, t.work, t.interval⟩ % UINT32_MOD = t.interval := by
      rw [hcb (n + 1) ⟨id, j, t.work, t.interval⟩ rfl]
      exact Nat.mod_eq_of_lt hwf
    rw [e, tick_body_lit_rearm _ _ _ _ (by rw [hc]; exact hk), if_pos hd]
  · omega

theorem periodic_count (cbs : Nat → timer_event → Nat) (s : State) (j id : Nat) (t : timer)
    (hj : j < 16) (hk : 0 < t.interval) (hwf : t.interval < UINT32_MOD)
    (hs : s._timer_states j = ⟨true, id, t, t.interval⟩)
    (hcb : ∀ n ev, ev.timer = j → cbs n ev = ev.next_interval) (T : Nat) :
    fire_count cbs s j T = T / t.interval := by
  induction T with
  | zero => simp [fire_count]
  | succ T ih =>
    rw [fire_count, ih, periodic_fired cbs s j id t hj hk hwf hs hcb T, Nat.succ_div]
    by_cases hd : t.interval ∣ T + 1
    · simp [hd]
    · simp [hd]

/-! ## Runs with foreground calls between the compare interrupts -/

/-- An event of the loop body comes from a valid slot and carries its id. -/
theorem tick_body_event (cb : timer_event → Nat) (i : Nat) (ts : timer_state) :
    ∀ ev ∈ (tick_body cb i ts).2, ts.valid = true ∧ ev.id = ts.id := by
  intro ev hev
  rcases tick_body_cases cb i ts with h | h | h | h
  · rw [h.2] at hev; simp at hev
  · rw [h.2.2] at hev; simp at hev
  · rw [h.2.2.2] at hev
    simp only [List.mem_singleton] at hev
    rw [hev]
    exact ⟨h.1, rfl⟩
  · rw [h.2.2.2] at hev
    simp only [List.mem_singleton] at hev
    rw [hev]
    exact ⟨h.1, rfl⟩

/-- When no valid slot but `p` carries the id, the events of the slot loop
with that id are those of the loop body for slot `p`. -/
theorem tick_loop_by_id (cb : timer_event → Nat) (id0 p n a : Nat) (tbl : Nat → timer_state)
    (hoth : ∀ j, a ≤ j → j < a + n → j ≠ p →
      ¬ ((tbl j).valid = true ∧ (tbl j).id = id0)) :
    (tick_loop cb n a tbl).2.filter (fun ev => ev.id == id0) =
      if a ≤ p ∧ p < a + n then
        (tick_body cb p (tbl p)).2.filter (fun ev => ev.id == id0)
      else [] := by
  induction n generalizing a tbl with
  | zero =>
    have : ¬ (a ≤ p ∧ p < a) := by omega
    simp [tick_loop, this]
  | succ n ih =>
    simp only [tick_loop, List.filter_append]
    have ih1 := ih (a + 1) (Function.update tbl a (tick_body cb a (tbl a)).1) (by
      intro j h1 h2 h3
      have hja : j ≠ a := by omega
      rw [Function.update_noteq hja]
      exact hoth j (by omega) (by omega) h3)
    rw [ih1]
    by_cases hpa : p = a
    · subst hpa
      have h1 : ¬ (p + 1 ≤ p ∧ p < p + 1 + n) := by omega
      have h2 : p ≤ p ∧ p < p + (n + 1) := by omega
      simp [h1, h2]
    · have h3 : (tick_body cb a (tbl a)).2.filter (fun ev => ev.id == id0) = [] := by
        rw [List.filter_eq_nil_iff]
        intro ev hev
        have hb := tick_body_event cb a (tbl a) ev hev
        have hn := hoth a (le_refl a) (by omega) (Ne.symm hpa)
        simp only [beq_iff_eq]
        intro he
        exact hn ⟨hb.1, by rw [← hb.2, he]⟩
      rw [h3, Function.update_noteq hpa]
      by_cases hc : a ≤ p ∧ p < a + (n + 1)
      · have h1 : a + 1 ≤ p ∧ p < a + 1 + n := by omega
        simp [h1, hc]
      · have h1 : ¬ (a + 1 ≤ p ∧ p < a + 1 + n) := by omega
        simp [h1, hc]

theorem handler_by_id (cb : timer_event → Nat) (id0 p : Nat) (s : State)
    (ho : others_differ id0 p s) :
    (_frt_compare_output_handler cb s).2.filter (fun ev => ev.id == id0) =
      if p < 16 then
        (tick_body cb p (s._timer_states p)).2.filter (fun ev => ev.id == id0)
      else [] := by
  have h := tick_loop_by_id cb id0 p 16 0 s._timer_states (by
    intro j _ h2 h3 hc
    exact ho j (by omega) h3 hc.1 hc.2)
  simp only [_frt_compare_output_handler, TIMER_MAX_TIMERS_COUNT]
  rw [h]
  by_cases hp : p < 16
  · have h1 : 0 ≤ p ∧ p < 0 + 16 := by omega
    simp [h1, hp]
  · have h1 : ¬ (0 ≤ p ∧ p < 0 + 16) := by omega
    simp [h1, hp]

/-- Effect of a defined `timer_add` on the slots that do not carry the id
`id0`, on the id counter and on slot `p`. -/
theorem add_step_others (id0 p : Nat) (t : timer) (s : State) (r : Int) (s1 : State)
    (h : timer_add t s = some (r, s1)) (ho : others_differ id0 p s)
    (hlt : id0 < s._id_count)
    (hb : s._id_count + (if r = 0 then 1 else 0) < UINT32_MOD) :
    others_differ id0 p s1 ∧ id0 < s1._id_count ∧
      s1._id_count = s._id_count + (if r = 0 then 1 else 0) ∧
      ((r = 0 → (add_select s).1 ≠ p) → s1._timer_states p = s._timer_states p) := by
  rcases timer_add_inv t s r s1 h with c | c
  · obtain ⟨hr, htbl, hid, _⟩ := c
    have hz : (if r = 0 then 1 else 0) = 0 := by
      rw [hr]; exact if_neg (by decide)
    refine ⟨?_, by rw [hid]; exact hlt, by rw [hid, hz, Nat.add_zero], fun _ => by rw [htbl]⟩
    intro j hj hjp hv
    rw [htbl] at hv ⊢
    exact ho j hj hjp hv
  · obtain ⟨hr, _, _, _, _, hs1⟩ := c
    subst hs1
    subst hr
    rw [if_pos rfl] at hb ⊢
    have hid : (registered t s)._id_count = s._id_count + 1 := by
      show (s._id_count + 1) % UINT32_MOD = s._id_count + 1
      exact Nat.mod_eq_of_lt hb
    refine ⟨?_, by rw [hid]; omega, hid, fun hsel => registered_other t s p (Ne.symm (hsel rfl))⟩
    intro j hj hjp hv
    by_cases hjs : j = (add_select s).1
    · rw [hjs, registered_slot]
      show s._id_count ≠ id0
      omega
    · rw [registered_other t s j hjs] at hv ⊢
      exact ho j hj hjp hv

/-- Effect of `timer_remove` on the same. -/
theorem remove_step_others (id0 p i : Nat) (s : State) (ho : others_differ id0 p s) :
    others_differ id0 p (timer_remove i s).2 ∧
      (timer_remove i s).2._id_count = s._id_count ∧
      ((s._timer_states p).id ≠ i →
        (timer_remove i s).2._timer_states p = s._timer_states p) := by
  rcases timer_remove_cases i s with c | ⟨k, hk, hkv, hki, c⟩
  · rw [c]
    exact ⟨ho, rfl, fun _ => rfl⟩
  · rw [c]
    refine ⟨?_, rfl, ?_⟩
    · intro j hj hjp hv
      by_cases hjk : j = k
      · rw [hjk] at hv
        simp at hv
      · simp only [Function.update_noteq hjk] at hv ⊢
        exact ho j hj hjp hv
    · intro hne
      have hpk : p ≠ k := by
        intro e
        rw [e] at hne
        exact hne hki
      simp only [Function.update_noteq hpk]

/-- Effect of a compare interrupt on the same. -/
theorem tick_step_others (id0 p : Nat) (cb : timer_event → Nat) (s : State)
    (ho : others_differ id0 p s) :
    others_differ id0 p (_frt_compare_output_handler cb s).1 ∧
      (_frt_compare_output_handler cb s).1._id_count = s._id_count := by
  refine ⟨?_, (handler_statics cb s).2.1⟩
  intro j hj hjp hv
  rw [handler_slot cb s j hj] at hv ⊢
  have k := tick_body_keeps cb j (s._timer_states j)
  rw [k.1]
  exact ho j hj hjp (k.2.2 hv)

theorem registrations_add (t : timer) (rest : List Step) (s : State) (r : Int) (s1 : State)
    (h : timer_add t s = some (r, s1)) :
    registrations (Step.add t :: rest) s = (if r = 0 then 1 else 0) + registrations rest s1 := by
  simp only [registrations, h]

/-- While no valid slot carries an id below the id counter and the counter
does not wrap, no event of a run carries that id and no slot comes to carry
it. -/
theorem absent_run (id0 : Nat) :
    ∀ (ops : List Step) (s s2 : State), others_differ id0 16 s → id0 < s._id_count →
      s._id_count + registrations ops s < UINT32_MOD → run ops s = some s2 →
      (events ops s).filter (fun ev => ev.id == id0) = [] ∧ others_differ id0 16 s2 := by
  intro ops
  induction ops with
  | nil =>
    intro s s2 ho _ _ hrun
    simp only [run, Option.some.injEq] at hrun
    subst hrun
    exact ⟨rfl, ho⟩
  | cons a rest ih =>
    intro s s2 ho hlt hb hrun
    cases a with
    | add t =>
      simp only [run, step] at hrun
      cases hta : timer_add t s with
      | none => rw [hta] at hrun; simp at hrun
      | some rs =>
        obtain ⟨r, s1⟩ := rs
        rw [hta] at hrun
        simp only [Option.map_some', Option.some_bind] at hrun
        rw [registrations_add t rest s r s1 hta] at hb
        have hb1 : s._id_count + (if r = 0 then 1 else 0) < UINT32_MOD :=
          lt_of_le_of_lt (Nat.add_le_add_left (Nat.le_add_right _ _) _) hb
        obtain ⟨h1, h2, h3, _⟩ := add_step_others id0 16 t s r s1 hta ho hlt hb1
        have hb2 : s1._id_count + registrations rest s1 < UINT32_MOD := by
          rw [h3, Nat.add_assoc]; exact hb
        have e : events (Step.add t :: rest) s = events rest s1 := by
          simp only [events, hta]
        rw [e]
        exact ih s1 s2 h1 h2 hb2 hrun
    | remove i =>
      simp only [run, step, Option.some_bind] at hrun
      obtain ⟨h1, h2, _⟩ := remove_step_others id0 16 i s ho
      have e : events (Step.remove i :: rest) s = events rest (timer_remove i s).2 := rfl
      have e2 : registrations (Step.remove i :: rest) s =
          registrations rest (timer_remove i s).2 := rfl
      rw [e]
      rw [e2] at hb
      exact ih _ s2 h1 (by rw [h2]; exact hlt) (by rw [h2]; exact hb) hrun
    | tick cb =>
      simp only [run, step, Option.some_bind] at hrun
      obtain ⟨h1, h2⟩ := tick_step_others id0 16 cb s ho
      have e : events (Step.tick cb :: rest) s =
          (_frt_compare_output_handler cb s).2 ++
            events rest (_frt_compare_output_handler cb s).1 := rfl
      have e2 : registrations (Step.tick cb :: rest) s =
          registrations rest (_frt_compare_output_handler cb s).1 := rfl
      rw [e2] at hb
      obtain ⟨i1, i2⟩ := ih _ s2 h1 (by rw [h2]; exact hlt) (by rw [h2]; exact hb) hrun
      have hf := handler_by_id cb id0 16 s ho
      rw [if_neg (lt_irrefl 16)] at hf
      rw [e, List.filter_append, hf, i1]
      exact ⟨rfl, i2⟩

theorem undisturbed_add (id0 : Nat) (t : timer) (rest : List Step) (s : State) (r : Int)
    (s1 : State) (h : timer_add t s = some (r, s1))
    (hu : undisturbed id0 (Step.add t :: rest) s = true) :
    (r = 0 →
        ¬ ((s._timer_states (add_select s).1).valid = true ∧
          (s._timer_states (add_select s).1).id = id0)) ∧
      undisturbed id0 rest s1 = true := by
  simp only [undisturbed, h, Bool.and_eq_true, Bool.or_eq_true, bne_iff_ne, ne_eq,
    Bool.not_eq_true', Bool.and_eq_false_imp, beq_eq_false_iff_ne] at hu
  refine ⟨?_, hu.2⟩
  intro hr hc
  rcases hu.1 with h1 | h1
  · exact h1 hr
  · exact h1 hc.1 hc.2

theorem undisturbed_remove (id0 i : Nat) (rest : List Step) (s : State)
    (hu : undisturbed id0 (Step.remove i :: rest) s = true) :
    i ≠ id0 ∧ undisturbed id0 rest (timer_remove i s).2 = true := by
  simp only [undisturbed, Bool.and_eq_true, bne_iff_ne, ne_eq] at hu
  exact hu

/-- The run of a one-shot timer that sits in slot `p` with `r` compare
interrupts to go: left alone by the foreground calls, with the id counter
not wrapping, its id is on exactly one event if the run has `r` compare
interrupts, and from that interrupt on no valid slot carries the id. -/
theorem live_run (id0 p : Nat) (t : timer) (hp : p < 16) :
    ∀ (ops : List Step) (s s2 : State) (r : Nat), 1 ≤ r →
      s._timer_states p = ⟨true, id0, t, r⟩ → others_differ id0 p s → id0 < s._id_count →
      s._id_count + registrations ops s < UINT32_MOD → undisturbed id0 ops s = true →
      (∀ cb, nth_tick ops r = some cb → cb ⟨id0, p, t.work, t.interval⟩ = 0) →
      run ops s = some s2 →
      (events ops s).filter (fun ev => ev.id == id0) =
          (if r ≤ tick_count ops then [⟨id0, p, t.work, t.interval⟩] else []) ∧
        (r ≤ tick_count ops → others_differ id0 16 s2) ∧
        (tick_count ops < r → s2._timer_states p = ⟨true, id0, t, r - tick_count ops⟩) := by
  intro ops
  induction ops with
  | nil =>
    intro s s2 r hr hs _ _ _ _ _ hrun
    simp only [run, Option.some.injEq] at hrun
    subst hrun
    have h0 : ¬ r ≤ 0 := by omega
    refine ⟨by simp [events, tick_count, h0], fun h => absurd h h0, fun _ => ?_⟩
    simpa [tick_count] using hs
  | cons a rest ih =>
    intro s s2 r hr hs ho hlt hb hu hcb hrun
    cases a with
    | add t1 =>
      simp only [run, step] at hrun
      cases hta : timer_add t1 s with
      | none => rw [hta] at hrun; simp at hrun
      | some rs =>
        obtain ⟨rr, s1⟩ := rs
        rw [hta] at hrun
        simp only [Option.map_some', Option.some_bind] at hrun
        rw [registrations_add t1 rest s rr s1 hta] at hb
        have hb1 : s._id_count + (if rr = 0 then 1 else 0) < UINT32_MOD :=
          lt_of_le_of_lt (Nat.add_le_add_left (Nat.le_add_right _ _) _) hb
        obtain ⟨h1, h2, h3, h4⟩ := add_step_others id0 p t1 s rr s1 hta ho hlt hb1
        obtain ⟨u1, u2⟩ := undisturbed_add id0 t1 rest s rr s1 hta hu
        have hsel : rr = 0 → (add_select s).1 ≠ p := by
          intro h0 e
          apply u1 h0
          rw [e, hs]
          exact ⟨rfl, rfl⟩
        have hb2 : s1._id_count + registrations rest s1 < UINT32_MOD := by
          rw [h3, Nat.add_assoc]; exact hb
        have e : events (Step.add t1 :: rest) s = events rest s1 := by
          simp only [events, hta]
        have e3 : tick_count (Step.add t1 :: rest) = tick_count rest := rfl
        have e4 : nth_tick (Step.add t1 :: rest) r = nth_tick rest r := rfl
        rw [e, e3]
        rw [e4] at hcb
        exact ih s1 s2 r hr (by rw [h4 hsel]; exact hs) h1 h2 hb2 u2 hcb hrun
    | remove i =>
      simp only [run, step, Option.some_bind] at hrun
      obtain ⟨u1, u2⟩ := undisturbed_remove id0 i rest s hu
      obtain ⟨h1, h2, h3⟩ := remove_step_others id0 p i s ho
      have hne : (s._timer_states p).id ≠ i := by
        rw [hs]
        exact Ne.symm u1
      have e : events (Step.remove i :: rest) s = events rest (timer_remove i s).2 := rfl
      have e2 : registrations (Step.remove i :: rest) s =
          registrations rest (timer_remove i s).2 := rfl
      have e3 : tick_count (Step.remove i :: rest) = tick_count rest := rfl
      have e4 : nth_tick (Step.remove i :: rest) r = nth_tick rest r := rfl
      rw [e, e3]
      rw [e2] at hb
      rw [e4] at hcb
      exact ih _ s2 r hr (by rw [h3 hne]; exact hs) h1 (by rw [h2]; exact hlt)
        (by rw [h2]; exact hb) u2 hcb hrun
    | tick cb =>
      simp only [run, step, Option.some_bind] at hrun
      obtain ⟨h1, h2⟩ := tick_step_others id0 p cb s ho
      have e : events (Step.tick cb :: rest) s =
          (_frt_compare_output_handler cb s).2 ++
            events rest (_frt_compare_output_handler cb s).1 := rfl
      have e2 : registrations (Step.tick cb :: rest) s =
          registrations rest (_frt_compare_output_handler cb s).1 := rfl
      have e3 : tick_count (Step.tick cb :: rest) = tick_count rest + 1 := rfl
      have e5 : undisturbed id0 (Step.tick cb :: rest) s =
          undisturbed id0 rest (_frt_compare_output_handler cb s).1 := rfl
      rw [e2] at hb
      rw [e5] at hu
      have hf := handler_by_id cb id0 p s ho
      rw [if_pos hp, hs] at hf
      have hslot := handler_slot cb s p hp
      rw [hs] at hslot
      rw [e, e3, List.filter_append, hf]
      by_cases hr1 : r = 1
      · subst hr1
        have hz : cb ⟨id0, p, t.work, t.interval⟩ = 0 := by
          apply hcb
          simp [nth_tick]
        have hstop := tick_body_lit_stop cb p id0 t (by rw [hz]; rfl)
        rw [hstop] at hf hslot ⊢
        have hdead : others_differ id0 16 (_frt_compare_output_handler cb s).1 := by
          intro j hj _ hv
          by_cases hjp : j = p
          · rw [hjp, hslot] at hv
            exact absurd hv Bool.false_ne_true
          · exact h1 j hj hjp hv
        obtain ⟨i1, i2⟩ := absent_run id0 rest _ s2 hdead (by rw [h2]; exact hlt)
          (by rw [h2]; exact hb) hrun
        have hle : 1 ≤ tick_count rest + 1 := by omega
        refine ⟨?_, fun _ => i2, fun h => by omega⟩
        rw [i1, if_pos hle]
        simp
      · have hr2 : 2 ≤ r := by omega
        have hcount := tick_body_lit_count cb p id0 t r hr2
        rw [hcount] at hslot ⊢
        have e4 : nth_tick (Step.tick cb :: rest) r = nth_tick rest (r - 1) := by
          simp [nth_tick, hr1]
        rw [e4] at hcb
        obtain ⟨i1, i2, i3⟩ := ih _ s2 (r - 1) (by omega) hslot h1 (by rw [h2]; exact hlt)
          (by rw [h2]; exact hb) hu hcb hrun
        refine ⟨?_, fun h => i2 (by omega), fun h => ?_⟩
        · rw [i1]
          by_cases hc : r - 1 ≤ tick_count rest
          · have hc2 : r ≤ tick_count rest + 1 := by omega
            simp [hc, hc2]
          · have hc2 : ¬ r ≤ tick_count rest + 1 := by omega
            simp [hc, hc2]
        · rw [i3 (by omega)]
          have e6 : r - 1 - tick_count rest = r - (tick_count rest + 1) := by omega
          rw [e6]

/-- A run continued: the state, and the registrations counted along it. -/
theorem run_append (rest : List Step) :
    ∀ (ops : List Step) (s s0 : State), run ops s = some s0 →
      run (ops ++ rest) s = run rest s0 ∧
        registrations (ops ++ rest) s = registrations ops s + registrations rest s0 := by
  intro ops
  induction ops with
  | nil =>
    intro s s0 hrun
    simp only [run, Option.some.injEq] at hrun
    subst hrun
    simp [registrations]
  | cons a tl ih =>
    intro s s0 hrun
    cases a with
    | add t =>
      simp only [run, step] at hrun
      cases hta : timer_add t s with
      | none => rw [hta] at hrun; simp at hrun
      | some rs =>
        obtain ⟨r, s1⟩ := rs
        rw [hta] at hrun
        simp only [Option.map_some', Option.some_bind] at hrun
        obtain ⟨i1, i2⟩ := ih s1 s0 hrun
        have e1 : run (Step.add t :: (tl ++ rest)) s = run (tl ++ rest) s1 := by
          simp [run, step, hta]
        rw [List.cons_append, e1, i1, registrations_add t (tl ++ rest) s r s1 hta,
          registrations_add t tl s r s1 hta, i2, Nat.add_assoc]
        exact ⟨rfl, rfl⟩
    | remove i =>
      simp only [run, step, Option.some_bind] at hrun
      exact ih _ s0 hrun
    | tick cb =>
      simp only [run, step, Option.some_bind] at hrun
      exact ih _ s0 hrun

/-! ## Return value and id of `timer_add` -/

/-- C1, as the code behaves: the second `timer_add` of a run returns `0`
although the id counter stood at `1` before the call and `1` is the id it
stored in the slot it filled (slot 1). -/
theorem timer_add_returns_zero_for_id_one :
    ((timer_add match1 (timer_init boot)).bind fun r1 =>
        (timer_add match2 r1.2).map fun r2 =>
          (r2.1, r1.2._id_count, (r2.2._timer_states 1).valid, (r2.2._timer_states 1).id,
            (r2.2._timer_states 1).event)) =
      some (0, 1, true, 1, match2) := by
  decide

/-- C1, amended: a `timer_add` that does not return the error value returns
the status `0`; the slot it filled lies in the table and holds the request
with the id counter's value from before the call as its id and `remaining`
equal to the interval, no other slot changes, and the id counter advances by
one modulo 2^32. -/
theorem timer_add_assigns_id_counter (t : timer) (s : State) (r : Int) (s1 : State)
    (h : timer_add t s = some (r, s1)) (hr : r ≠ -1) :
    r = 0 ∧ (add_select s).1 < 16 ∧
      s1._timer_states (add_select s).1 = ⟨true, s._id_count, t, t.interval⟩ ∧
      (∀ j, j ≠ (add_select s).1 → s1._timer_states j = s._timer_states j) ∧
      s1._id_count = (s._id_count + 1) % UINT32_MOD := by
  rcases timer_add_inv t s r s1 h with h1 | h1
  · exact absurd h1.1 hr
  · obtain ⟨h0, _, _, hx, _, hs⟩ := h1
    subst hs
    exact ⟨h0, add_select_lt s hx, registered_slot t s, registered_other t s, rfl⟩

theorem timer_add_assigns_id_counter_witness :
    (0 : Int) = 0 ∧ (add_select (timer_init boot)).1 < 16 ∧
      (registered match1 (timer_init boot))._timer_states (add_select (timer_init boot)).1 =
        ⟨true, (timer_init boot)._id_count, match1, match1.interval⟩ ∧
      (∀ j, j ≠ (add_select (timer_init boot)).1 →
        (registered match1 (timer_init boot))._timer_states j =
          (timer_init boot)._timer_states j) ∧
      (registered match1 (timer_init boot))._id_count =
        ((timer_init boot)._id_count + 1) % UINT32_MOD :=
  timer_add_assigns_id_counter match1 (timer_init boot) 0 (registered match1 (timer_init boot))
    (timer_add_ok match1 (timer_init boot) (by decide) (by decide) (by decide) (by decide))
    (by decide)

/-! ## `timer_add` followed by `timer_remove` -/

/-- C2, as the code behaves: after a timer was registered and cancelled, a
valid request is registered (`timer_add` returns `0`, the slot gets id `1`)
and `timer_remove` on the returned value fails with `-1`, leaving one valid
slot where there was none before the registration. -/
theorem remove_of_returned_value_fails :
    ((timer_add match1 (timer_init boot)).bind fun r1 =>
        (timer_add match2 (timer_remove 0 r1.2).2).map fun r2 =>
          ((timer_remove 0 r1.2).1, occupancy (timer_remove 0 r1.2).2, r2.1,
            (timer_remove (to_uint32 r2.1) r2.2).1,
            occupancy (timer_remove (to_uint32 r2.1) r2.2).2)) =
      some (0, 0, 0, -1, 1) := by
  decide

/-- C2, amended: in a state with a free slot and a next-free hint below 16,
`timer_add` of a request with a callback and a nonzero interval returns `0`;
`timer_remove` on the id that `timer_add` assigned (the id counter's value
before the call) then returns `0`, and the number of valid slots is again what
it was before the `timer_add`. -/
theorem add_then_remove_assigned_id (t : timer) (s : State) (hc : t.callback ≠ 0)
    (hi : t.interval ≠ 0) (hn : s._next_timer < 16)
    (hfree : ∃ j, j < 16 ∧ (s._timer_states j).valid = false) :
    timer_add t s = some (0, registered t s) ∧
      (timer_remove s._id_count (registered t s)).1 = 0 ∧
      occupancy (timer_remove s._id_count (registered t s)).2 = occupancy s := by
  have hx : (s._next_timer &&& 0x1F) < 16 := by rw [and_1F_of_lt _ hn]; exact hn
  have hsel : (add_select s).2 ≤ 16 := by
    by_cases hv : (s._timer_states (s._next_timer &&& 0x1F)).valid = true
    · exact add_select_scan_le s hv
    · have hv2 : (s._timer_states (s._next_timer &&& 0x1F)).valid = false := by simpa using hv
      have e : (add_select s).2 = (s._next_timer + 1) % UINT32_MOD := by
        simp [add_select, hv2]
      rw [e, UINT32_MOD]
      omega
  have hplt := add_select_lt s hx
  have hfr := add_select_free s hfree
  have hocc := occupancy_registered t s hx hfr
  obtain ⟨k1, k2, k3, k4⟩ := timer_remove_found s._id_count (registered t s)
    ⟨(add_select s).1, hplt, by rw [registered_slot], by rw [registered_slot]⟩
  refine ⟨timer_add_ok t s hc hi hx hsel, by rw [k4], ?_⟩
  rw [k4]
  have h := countP_update (registered t s)._timer_states
    (remove_scan (registered t s)._timer_states s._id_count 16 0)
    { (registered t s)._timer_states
        (remove_scan (registered t s)._timer_states s._id_count 16 0) with valid := false } 16
  simp only [k1, k2, true_and, Bool.false_eq_true, if_false, if_true, add_zero, and_self] at h
  simp only [occupancy, TIMER_MAX_TIMERS_COUNT] at hocc ⊢
  omega

theorem add_then_remove_assigned_id_witness :
    timer_add match1 (timer_init boot) = some (0, registered match1 (timer_init boot)) ∧
      (timer_remove (timer_init boot)._id_count (registered match1 (timer_init boot))).1 = 0 ∧
      occupancy
          (timer_remove (timer_init boot)._id_count (registered match1 (timer_init boot))).2 =
        occupancy (timer_init boot) :=
  add_then_remove_assigned_id match1 (timer_init boot) (by decide) (by decide) (by decide)
    ⟨0, by decide, by decide⟩

/-! ## Error returns of `timer_add` -/

/-- C4: for every state, `timer_add` of a request with interval `0` or a null
callback returns `-1` and leaves the slot table, the id counter and the
next-free hint as they were; the number of valid slots is unchanged. -/
theorem timer_add_invalid_argument (t : timer) (s : State)
    (h : t.interval = 0 ∨ t.callback = 0) :
    ∃ s1, timer_add t s = some (-1, s1) ∧ s1._timer_states = s._timer_states ∧
      s1._id_count = s._id_count ∧ s1._next_timer = s._next_timer ∧
      occupancy s1 = occupancy s := by
  refine ⟨{ s with i_mask := 0x0F }, ?_, rfl, rfl, rfl, rfl⟩
  by_cases hc : t.callback = 0
  · simp [timer_add, hc]
  · have hi : t.interval = 0 := h.resolve_right hc
    simp [timer_add, hc, hi]

theorem timer_add_invalid_argument_witness :
    ∃ s1, timer_add ⟨0, 1, 101⟩ (timer_init boot) = some (-1, s1) ∧
      s1._timer_states = (timer_init boot)._timer_states ∧
      s1._id_count = (timer_init boot)._id_count ∧
      s1._next_timer = (timer_init boot)._next_timer ∧
      occupancy s1 = occupancy (timer_init boot) :=
  timer_add_invalid_argument ⟨0, 1, 101⟩ (timer_init boot) (Or.inl rfl)

/-- C3, as the code behaves: on the full table reached by `full_steps` (all
sixteen slots valid, `_next_timer = 4`, slot 15 holding id 15 of `match1`),
`timer_add match2` returns `0` and slot 15 now holds `match2` under id 17. -/
theorem timer_add_on_full_table_overwrites :
    ((run full_steps (timer_init boot)).map fun s =>
        (occupancy s, s._next_timer, (s._timer_states 15).id, (s._timer_states 15).event)) =
      some (16, 4, 15, match1) ∧
    ((run full_steps (timer_init boot)).bind fun s =>
        (timer_add match2 s).map fun r =>
          (r.1, (r.2._timer_states 15).id, (r.2._timer_states 15).event, r.2._next_timer)) =
      some (0, 17, match2, 16) := by
  decide!

/-- C9, as the code behaves: entered with mask `7`, `timer_add` returns `-1`
for a null callback and for a zero interval with the mask left at `0x0F`. -/
theorem timer_add_error_leaves_mask_raised :
    (timer_init boot).i_mask = 7 ∧
      ((timer_add ⟨1000, 0, 101⟩ (timer_init boot)).map fun r => (r.1, r.2.i_mask)) =
        some (-1, 15) ∧
      ((timer_add ⟨0, 1, 101⟩ (timer_init boot)).map fun r => (r.1, r.2.i_mask)) =
        some (-1, 15) := by
  decide

/-- C10, as the code behaves: after `timer_init` and sixteen successful
`timer_add` calls `_next_timer` is 16, the index `_next_timer & 0x1F` is 16,
and the next `timer_add` reads outside `_timer_states`. -/
theorem hint_index_reaches_sixteen :
    ((run (List.replicate 16 (Step.add match1)) (timer_init boot)).map fun s =>
        (s._next_timer, s._next_timer &&& 0x1F, occupancy s,
          (timer_add match2 s).isNone)) =
      some (16, 16, 16, true) := by
  decide!

/-! ## The runs used as concrete instances -/

/-- A successful `timer_add` at the head of a run. -/
theorem run_cons_add (t : timer) (rest : List Step) (s : State) (hc : t.callback ≠ 0)
    (hi : t.interval ≠ 0) (hx : (s._next_timer &&& 0x1F) < 16) (hn : (add_select s).2 ≤ 16) :
    run (Step.add t :: rest) s = run rest (registered t s) := by
  simp [run, step, timer_add_ok t s hc hi hx hn]

theorem run_main_prefix (rest : List Step) :
    run (Step.add match1 :: Step.add match2 :: Step.add match3 :: Step.add match4 :: rest)
        (timer_init boot) =
      run rest main_state := by
  rw [run_cons_add _ _ _ (by decide) (by decide) (by decide!) (by decide!),
    run_cons_add _ _ _ (by decide) (by decide) (by decide!) (by decide!),
    run_cons_add _ _ _ (by decide) (by decide) (by decide!) (by decide!),
    run_cons_add _ _ _ (by decide) (by decide) (by decide!) (by decide!)]
  rfl

theorem run_main_steps : run main_steps (timer_init boot) = some main_state :=
  run_main_prefix []

theorem run_demo_steps : run demo_steps (timer_init boot) = some demo_state :=
  run_main_prefix [Step.tick _timer_handler, Step.remove 1]

/-! ## Periodic and one-shot timers -/

/-- Periodic firing while the slot is intact: a timer registered by a
successful `timer_add` with interval `k` (below 2^32, as a `uint32_t` is)
whose slot is still as `timer_add` left it and whose callback leaves
`next_interval` as handed over is given an event at the `n`-th of a row of
compare interrupts exactly when `k` divides `n`, so after `T` of them it has
fired `T / k` times. -/
theorem periodic_timer_fires_every_interval (s0 s1 s : State) (t : timer)
    (cbs : Nat → timer_event → Nat) (T : Nat) (hwf : t.interval < UINT32_MOD)
    (hadd : timer_add t s0 = some (0, s1))
    (hkeep : s._timer_states (add_select s0).1 = s1._timer_states (add_select s0).1)
    (hcb : ∀ n ev, ev.timer = (add_select s0).1 → cbs n ev = ev.next_interval) :
    (∀ n, 1 ≤ n →
        fired_by cbs s (add_select s0).1 n =
          if t.interval ∣ n then
            [⟨s0._id_count, (add_select s0).1, t.work, t.interval⟩]
          else []) ∧
      fire_count cbs s (add_select s0).1 T = T / t.interval := by
  rcases timer_add_inv t s0 0 s1 hadd with c | c
  · exact absurd c.1 (by decide)
  · obtain ⟨_, _, hi, hx, _, hs1⟩ := c
    subst hs1
    rw [registered_slot] at hkeep
    have hj := add_select_lt s0 hx
    have hk : 0 < t.interval := Nat.pos_of_ne_zero hi
    refine ⟨?_, periodic_count cbs s _ _ t hj hk hwf hkeep hcb T⟩
    intro n hn
    obtain ⟨m, rfl⟩ : ∃ m, n = m + 1 := ⟨n - 1, by omega⟩
    exact periodic_fired cbs s _ _ t hj hk hwf hkeep hcb m

/-- The four timers of `main` fire 3, 1, 1000 and 6 times in 3000 compare
interrupts. -/
theorem main_timers_fire_counts :
    run main_steps (timer_init boot) = some main_state ∧
      fire_count (fun _ => _timer_handler) main_state 0 3000 = 3 ∧
      fire_count (fun _ => _timer_handler) main_state 1 3000 = 1 ∧
      fire_count (fun _ => _timer_handler) main_state 2 3000 = 1000 ∧
      fire_count (fun _ => _timer_handler) main_state 3 3000 = 6 := by
  have h1 := (periodic_timer_fires_every_interval (timer_init boot)
    (registered match1 (timer_init boot)) main_state match1 (fun _ => _timer_handler) 3000
    (by decide) (timer_add_ok _ _ (by decide) (by decide) (by decide!) (by decide!))
    (by decide!) (fun _ _ _ => rfl)).2
  have h2 := (periodic_timer_fires_every_interval (registered match1 (timer_init boot))
    (registered match2 (registered match1 (timer_init boot))) main_state match2
    (fun _ => _timer_handler) 3000
    (by decide) (timer_add_ok _ _ (by decide) (by decide) (by decide!) (by decide!))
    (by decide!) (fun _ _ _ => rfl)).2
  have h3 := (periodic_timer_fires_every_interval
    (registered match2 (registered match1 (timer_init boot)))
    (registered match3 (registered match2 (registered match1 (timer_init boot)))) main_state
    match3 (fun _ => _timer_handler) 3000
    (by decide) (timer_add_ok _ _ (by decide) (by decide) (by decide!) (by decide!))
    (by decide!) (fun _ _ _ => rfl)).2
  have h4 := (periodic_timer_fires_every_interval
    (registered match3 (registered match2 (registered match1 (timer_init boot))))
    main_state main_state match4 (fun _ => _timer_handler) 3000
    (by decide) (timer_add_ok _ _ (by decide) (by decide) (by decide!) (by decide!))
    rfl (fun _ _ _ => rfl)).2
  have e1 : (add_select (timer_init boot)).1 = 0 := by decide!
  have e2 : (add_select (registered match1 (timer_init boot))).1 = 1 := by decide!
  have e3 : (add_select (registered match2 (registered match1 (timer_init boot)))).1 = 2 := by
    decide!
  have e4 : (add_select
      (registered match3 (registered match2 (registered match1 (timer_init boot))))).1 = 3 := by
    decide!
  rw [e1] at h1
  rw [e2] at h2
  rw [e3] at h3
  rw [e4] at h4
  exact ⟨run_main_steps, h1.trans (by decide), h2.trans (by decide), h3.trans (by decide),
    h4.trans (by decide)⟩

/-- C5, as the code behaves: `victim` (interval 5) is registered into slot 15
under id 15 and never cancelled; the `timer_add` that `victim_steps` ends with
meets a full table and rewrites slot 15 (id 17, `match2`), after which no
valid slot carries id 15, and the next ten compare interrupts hand out three
events, all of id 16, none at the fifth or tenth interrupt for `victim`. -/
theorem overwritten_timer_never_fires :
    ((run (List.replicate 15 (Step.add match1) ++ [Step.add victim]) (timer_init boot)).map
        fun s =>
          ((s._timer_states 15).valid, (s._timer_states 15).id, (s._timer_states 15).event,
            (s._timer_states 15).remaining)) =
      some (true, 15, victim, 5) ∧
    ((run victim_steps (timer_init boot)).map fun s =>
        ((s._timer_states 15).valid, (s._timer_states 15).id, (s._timer_states 15).event)) =
      some (true, 17, match2) ∧
    ((run victim_steps (timer_init boot)).map fun s =>
        (List.range 16).map fun j => (s._timer_states j).id) =
      some [0, 1, 2, 16, 4, 5, 6, 7, 8, 9, 10, 11, 12, 13, 14, 17] ∧
    ((run victim_steps (timer_init boot)).map fun s =>
        (events (List.replicate 10 (Step.tick _timer_handler)) s).map fun ev => ev.id) =
      some [16, 16, 16] := by
  decide!

/-- C6, as the code behaves: in `wrapped_state` the id counter stands at 7
again while slot 0 is armed under id 7.  `timer_add one_shot` returns `0` and
gives slot 1 the id 7; with a callback that answers `0` the slot fires once in
three compare interrupts and is free; `timer_remove 7` then returns `0`, not
`-1`, and clears slot 0. -/
theorem cancel_after_wrap_hits_other_timer :
    ((timer_add one_shot wrapped_state).map fun r =>
        (r.1, (r.2._timer_states 1).valid, (r.2._timer_states 1).id)) =
      some (0, true, 7) ∧
    ((timer_add one_shot wrapped_state).map fun r =>
        (fire_count (fun _ _ => 0) r.2 1 3,
          ((ticks (fun _ _ => 0) 3 r.2)._timer_states 1).valid,
          ((ticks (fun _ _ => 0) 3 r.2)._timer_states 0).valid,
          ((ticks (fun _ _ => 0) 3 r.2)._timer_states 0).id)) =
      some (1, false, true, 7) ∧
    ((timer_add one_shot wrapped_state).map fun r =>
        ((timer_remove 7 (ticks (fun _ _ => 0) 3 r.2)).1,
          ((timer_remove 7 (ticks (fun _ _ => 0) 3 r.2)).2._timer_states 0).valid)) =
      some (0, false) := by
  decide!

/-- The table-full slip of `timer_add` also removes a one-shot timer: the
request `one_shot` is registered into slot 15 under id 15 and never
cancelled, the last `timer_add` of the run rewrites slot 15, and the next
five compare interrupts, met by a callback that would stop id 15, hand out
one event, of id 16. -/
theorem overwritten_one_shot_never_fires :
    ((run (List.replicate 15 (Step.add match1) ++ [Step.add one_shot]) (timer_init boot)).map
        fun s => ((s._timer_states 15).valid, (s._timer_states 15).id, (s._timer_states 15).event)) =
      some (true, 15, one_shot) ∧
    ((run
          (List.replicate 15 (Step.add match1) ++
            [Step.add one_shot, Step.remove 3, Step.add match3, Step.add match2])
          (timer_init boot)).map fun s =>
        ((s._timer_states 15).id,
          (events
              (List.replicate 5
                (Step.tick fun ev => if ev.id = 15 then 0 else ev.next_interval)) s).map
            fun ev => ev.id)) =
      some (17, [16]) := by
  decide!

/-- C6, amended: a timer registered by a successful `timer_add` in a state
reached from `timer_init`, whose callback answers its first event with
`next_interval = 0`, in a run that goes on with any `timer_add`,
`timer_remove` and compare-interrupt steps such that fewer than 2^32
registrations are made in all, the timer is not cancelled and no `timer_add`
rewrites its slot while it is armed: the events carrying its id are none
before the compare interrupt number `interval` and exactly one from that
interrupt on; before it the slot counts down, and from it on no valid slot
carries the id and `timer_remove` on the id returns `-1` and changes
nothing. -/
theorem one_shot_timer_fires_once (ops0 ops1 : List Step) (s0 s1 s2 : State) (t : timer)
    (hrun0 : run ops0 (timer_init boot) = some s0) (hadd : timer_add t s0 = some (0, s1))
    (hrun1 : run ops1 s1 = some s2)
    (hn : registrations (ops0 ++ Step.add t :: ops1) (timer_init boot) < UINT32_MOD)
    (hund : undisturbed s0._id_count ops1 s1 = true)
    (hcb : ∀ cb, nth_tick ops1 t.interval = some cb →
      cb ⟨s0._id_count, (add_select s0).1, t.work, t.interval⟩ = 0) :
    (events ops1 s1).filter (fun ev => ev.id == s0._id_count) =
        (if t.interval ≤ tick_count ops1 then
          [⟨s0._id_count, (add_select s0).1, t.work, t.interval⟩]
        else []) ∧
      (tick_count ops1 < t.interval →
        s2._timer_states (add_select s0).1 =
          ⟨true, s0._id_count, t, t.interval - tick_count ops1⟩) ∧
      (t.interval ≤ tick_count ops1 →
        (∀ j, j < 16 → (s2._timer_states j).valid = true →
            (s2._timer_states j).id ≠ s0._id_count) ∧
          timer_remove s0._id_count s2 = (-1, s2)) := by
  have hreg := (run_append (Step.add t :: ops1) ops0 (timer_init boot) s0 hrun0).2
  rw [registrations_add t ops1 s0 0 s1 hadd, if_pos rfl] at hreg
  rw [hreg] at hn
  have hids := run_ids ops0 s0 (by omega) hrun0
  rcases timer_add_inv t s0 0 s1 hadd with c | c
  · exact absurd c.1 (by decide)
  · obtain ⟨_, _, hi, hx, _, hs1⟩ := c
    subst hs1
    have hp := add_select_lt s0 hx
    have hk : 1 ≤ t.interval := Nat.pos_of_ne_zero hi
    have hid : (registered t s0)._id_count = s0._id_count + 1 := by
      show (s0._id_count + 1) % UINT32_MOD = s0._id_count + 1
      exact Nat.mod_eq_of_lt (by omega)
    have ho : others_differ s0._id_count (add_select s0).1 (registered t s0) := by
      intro j hj hjp hv
      rw [registered_other t s0 j hjp] at hv ⊢
      exact Nat.ne_of_lt (hids.2.1 j hj hv)
    obtain ⟨r1, r2, r3⟩ := live_run s0._id_count (add_select s0).1 t hp ops1 (registered t s0)
      s2 t.interval hk (registered_slot t s0) ho (by rw [hid]; omega) (by rw [hid]; omega)
      hund hcb hrun1
    refine ⟨r1, r3, fun hle => ?_⟩
    have hd := r2 hle
    have hno : ∀ j, j < 16 → (s2._timer_states j).valid = true →
        (s2._timer_states j).id ≠ s0._id_count :=
      fun j hj hv => hd j hj (Nat.ne_of_lt hj) hv
    refine ⟨hno, timer_remove_missing _ _ ?_⟩
    intro j hj hc
    exact hno j hj hc.1 hc.2

theorem run_one_shot_steps :
    run one_shot_steps (registered one_shot main_state) = some one_shot_state := by
  have h : (run one_shot_steps (registered one_shot main_state)).isSome = true := by decide!
  unfold one_shot_state
  cases hr : run one_shot_steps (registered one_shot main_state) with
  | none => rw [hr] at h; exact absurd h (by decide)
  | some x => rfl

theorem one_shot_timer_fires_once_witness :
    (events one_shot_steps (registered one_shot main_state)).filter
          (fun ev => ev.id == main_state._id_count) =
        (if one_shot.interval ≤ tick_count one_shot_steps then
          [⟨main_state._id_count, (add_select main_state).1, one_shot.work, one_shot.interval⟩]
        else []) ∧
      (tick_count one_shot_steps < one_shot.interval →
        one_shot_state._timer_states (add_select main_state).1 =
          ⟨true, main_state._id_count, one_shot,
            one_shot.interval - tick_count one_shot_steps⟩) ∧
      (one_shot.interval ≤ tick_count one_shot_steps →
        (∀ j, j < 16 → (one_shot_state._timer_states j).valid = true →
            (one_shot_state._timer_states j).id ≠ main_state._id_count) ∧
          timer_remove main_state._id_count one_shot_state = (-1, one_shot_state)) :=
  one_shot_timer_fires_once main_steps one_shot_steps main_state
    (registered one_shot main_state) one_shot_state one_shot run_main_steps
    (timer_add_ok _ _ (by decide) (by decide) (by decide!) (by decide!)) run_one_shot_steps
    (by decide!) (by decide!)
    (by
      intro cb h
      simp only [nth_tick, one_shot_steps, one_shot] at h
      simp at h
      subst h
      decide!)

/-! ## Invariants of the reachable states -/

/-- C7: in every state reached from `timer_init` by a sequence of
`timer_add`, `timer_remove` and compare-interrupt steps with fewer than 2^32
registrations, whatever the callbacks answer, no valid slot has a null
callback and no two distinct valid slots hold the same id. -/
theorem reachable_callbacks_and_ids (ops : List Step) (s : State)
    (hn : registrations ops (timer_init boot) < UINT32_MOD)
    (hrun : run ops (timer_init boot) = some s) :
    (∀ i, i < 16 → (s._timer_states i).valid = true →
        (s._timer_states i).event.callback ≠ 0) ∧
      (∀ i j, i < 16 → j < 16 → i ≠ j → (s._timer_states i).valid = true →
        (s._timer_states j).valid = true → (s._timer_states i).id ≠ (s._timer_states j).id) :=
  ⟨fun i hi hv => (run_armed ops s hrun i hi hv).1, (run_ids ops s hn hrun).2.2⟩

theorem reachable_callbacks_and_ids_witness :
    (∀ i, i < 16 → (demo_state._timer_states i).valid = true →
        (demo_state._timer_states i).event.callback ≠ 0) ∧
      (∀ i j, i < 16 → j < 16 → i ≠ j → (demo_state._timer_states i).valid = true →
        (demo_state._timer_states j).valid = true →
        (demo_state._timer_states i).id ≠ (demo_state._timer_states j).id) :=
  reachable_callbacks_and_ids demo_steps demo_state (by decide!) run_demo_steps

/-- C8, as the code behaves: after `timer_add` of a request with interval 1
and one compare interrupt whose callback sets `next_interval` to 5, slot 0 is
valid with stored interval 1 and `remaining = 5`. -/
theorem rearm_exceeds_stored_interval :
    ((run [Step.add ⟨1, 1, 101⟩, Step.tick (fun _ => 5)] (timer_init boot)).map fun s =>
        ((s._timer_states 0).valid, (s._timer_states 0).event.interval,
          (s._timer_states 0).remaining)) =
      some (true, 1, 5) := by
  decide

/-- C8, amended: in every state reached from `timer_init` by a sequence of
`timer_add`, `timer_remove` and compare-interrupt steps, whatever the
callbacks answer, every valid slot has a stored interval above 0 and a
remaining count of at least 1; the remaining count is at most the stored
interval when no callback of the run sets `next_interval` above the value it
was handed. -/
theorem reachable_interval_and_remaining (ops : List Step) (s : State)
    (hrun : run ops (timer_init boot) = some s) (j : Nat) (hj : j < 16)
    (hv : (s._timer_states j).valid = true) :
    0 < (s._timer_states j).event.interval ∧ 1 ≤ (s._timer_states j).remaining ∧
      (rearm_bounded ops → (s._timer_states j).remaining ≤ (s._timer_states j).event.interval) :=
  ⟨(run_armed ops s hrun j hj hv).2.1, (run_armed ops s hrun j hj hv).2.2,
    fun hb => run_within ops s hrun hb j hj hv⟩

theorem reachable_interval_and_remaining_witness :
    0 < (demo_state._timer_states 2).event.interval ∧
      1 ≤ (demo_state._timer_states 2).remaining ∧
      (rearm_bounded demo_steps →
        (demo_state._timer_states 2).remaining ≤ (demo_state._timer_states 2).event.interval) :=
  reachable_interval_and_remaining demo_steps demo_state run_demo_steps 2 (by decide)
    (by decide!)

end CpuFrt
